import Mathlib

/-!
# E20 machine-code simulator (`src/sim.cpp`)

A shallow embedding of the fetch-decode-execute engine of `sim.cpp`:
the three executors `execute_instruction`, `execute_imm_instruction`,
`execute_control_instruction` and the body of the simulation loop of `main`.

Conventions of the embedding.

* A `uint16_t` value is a natural number; the register file `uint16_t regs[8]`
  and the memory `uint16_t memory[8192]` are functions from the index to the
  stored value.  The predicate `WF` says that every stored value is below `2^16`;
  `run_WF` shows that every state of a run from a 16-bit memory image satisfies it.
* C evaluates `uint16_t` operands in `int`.  Where the `int` result is stored back
  into a `uint16_t` the embedding reduces it modulo `2^16` (`u16`, and `s16` for a
  difference, which can be negative).  A value that was just masked with a constant
  below `2^16`, a copy of a `uint16_t`, and the `|` or `&` of two `uint16_t` values are
  stored as they are.
* A `switch` over constants is written as a chain of `if`s in the order of the
  `case` labels.
* Two further copies of the code serve the safety and refinement statements: the
  executors and the loop body with every array access bounds-checked
  (`cycle_checked`), and the loop without the pre-dispatch halt check
  (`cycle_without_precheck`).
-/

namespace E20

/-! ## Constants -/

abbrev NUM_REGS : Nat := 8
abbrev MEM_SIZE : Nat := 1 <<< 13
abbrev REG_SIZE : Nat := 1 <<< 16

abbrev functionCodeAdd : Nat := 0b0000
abbrev functionCodeSub : Nat := 0b0001
abbrev functionCodeOr : Nat := 0b0010
abbrev functionCodeAnd : Nat := 0b0011
abbrev functionCodeSlt : Nat := 0b0100
abbrev functionCodeJr : Nat := 0b1000

abbrev opcodeFirst : Nat := 0b000
abbrev opcodeSlti : Nat := 0b111
abbrev opcodeLw : Nat := 0b100
abbrev opcodeSw : Nat := 0b101
abbrev opcodeJeq : Nat := 0b110
abbrev opcodeAddi : Nat := 0b001
abbrev opcodeJ : Nat := 0b010
abbrev opcodeJal : Nat := 0b011

/-! ## Machine integers and arrays -/

/-- Conversion of a non-negative `int` to `uint16_t`. -/
def u16 (n : Nat) : Nat := n % 65536

/-- Conversion of an `int` (possibly negative) to `uint16_t`. -/
def s16 (x : Int) : Nat := (x % 65536).toNat

/-- The array assignment `a[i] = v`. -/
def write (a : Nat → Nat) (i v : Nat) : Nat → Nat :=
  fun j => if j = i then v else a j

/-- The immediate of `execute_imm_instruction` (lines 134 and 142-144, repeated at
lines 155-158 and 171-173): `imm = instr & 0x7F; if (imm & 0x40) imm |= 0xFF80;`. -/
def signExtend (instr : Nat) : Nat :=
  let imm := instr &&& 0x7F
  if imm &&& 0x40 ≠ 0 then imm ||| 0xFF80 else imm

/-! ## The executors -/

/-- The function `execute_instruction` (add, sub, or, and, slt, jr): returns the new
register file and the new `pc`. -/
def execute_instruction (instr : Nat) (regs : Nat → Nat) (pc : Nat) :
    (Nat → Nat) × Nat :=
  let functionCode := instr &&& 0xF
  let regSrcA := (instr >>> 10) &&& 0x7
  let regSrcB := (instr >>> 7) &&& 0x7
  let regDst := (instr >>> 4) &&& 0x7
  let r : (Nat → Nat) × Nat :=
    if functionCode = functionCodeAdd then
      (write regs regDst (u16 (regs regSrcA + regs regSrcB)), pc)
    else if functionCode = functionCodeSub then
      (write regs regDst (s16 ((regs regSrcA : Int) - (regs regSrcB : Int))), pc)
    else if functionCode = functionCodeOr then
      (write regs regDst (regs regSrcA ||| regs regSrcB), pc)
    else if functionCode = functionCodeAnd then
      (write regs regDst (regs regSrcA &&& regs regSrcB), pc)
    else if functionCode = functionCodeSlt then
      (write regs regDst (if regs regSrcA < regs regSrcB then 1 else 0), pc)
    else if functionCode = functionCodeJr then
      (regs, s16 ((regs ((instr >>> 10) &&& 0x7) : Int) - 1))
    else
      (regs, pc)
  (write r.1 0 0, u16 (r.2 + 1))

/-- The function `execute_imm_instruction` (slti, lw, sw, jeq, addi): returns the new
register file, the new `pc` and the new memory. -/
def execute_imm_instruction (instr : Nat) (regs : Nat → Nat) (pc : Nat)
    (memory : Nat → Nat) : (Nat → Nat) × Nat × (Nat → Nat) :=
  let opcode := (instr >>> 13) &&& 0x7
  let regSrc := (instr >>> 10) &&& 0x7
  let regDst := (instr >>> 7) &&& 0x7
  let imm := signExtend instr
  let r : (Nat → Nat) × Nat × (Nat → Nat) :=
    if opcode = opcodeSlti then
      (write regs regDst (if regs regSrc < imm then 1 else 0), u16 (pc + 1), memory)
    else if opcode = opcodeLw then
      let regAddr := (instr >>> 9) &&& 0x7
      let regDst := (instr >>> 6) &&& 0x7
      let imm := signExtend instr
      let loadAddr := (regs regAddr + imm) &&& 8191
      let regs1 := if loadAddr < 1 <<< 13 then write regs regDst (memory loadAddr) else regs
      (regs1, u16 (pc + 1), memory)
    else if opcode = opcodeSw then
      let regAddr := (instr >>> 9) &&& 0x7
      let regSrc := (instr >>> 6) &&& 0x7
      let imm := signExtend instr
      let storeAddr := (regs regAddr + imm) &&& 8191
      let memory1 :=
        if storeAddr < 1 <<< 13 then write memory storeAddr (regs regSrc) else memory
      (regs, u16 (pc + 1), memory1)
    else if opcode = opcodeJeq then
      if regs regSrc = regs regDst then
        (regs, u16 (pc + 1 + imm), memory)
      else
        (regs, u16 (pc + 1), memory)
    else if opcode = opcodeAddi then
      (write regs regDst (u16 (regs regSrc + imm)), u16 (pc + 1), memory)
    else
      (regs, u16 (pc + 1), memory)
  (write r.1 0 0, r.2.1, r.2.2)

/-- The function `execute_control_instruction` (j, jal): returns the new register file,
the new `pc` and the new value of the flag `isHalt`. -/
def execute_control_instruction (instr : Nat) (regs : Nat → Nat) (pc : Nat)
    (isHalt : Bool) : (Nat → Nat) × Nat × Bool :=
  let opcode := (instr >>> 13) &&& 0x7
  let imm := instr &&& 0x1FFF
  let r : (Nat → Nat) × Nat × Bool :=
    if opcode = opcodeJ then
      if imm = pc then (regs, pc, true) else (regs, imm, isHalt)
    else if opcode = opcodeJal then
      (write regs 7 (u16 (pc + 1)), imm, isHalt)
    else
      (regs, pc, isHalt)
  (write r.1 0 0, r.2.1, r.2.2)

/-! ## The simulation loop of `main` -/

/-- The variables of `main` that the simulation loop reads and writes. -/
structure State where
  pc : Nat
  regs : Nat → Nat
  memory : Nat → Nat
  isHalt : Bool

/-- The state in which the loop is entered: `pc = 0`, `regs = {0}`, `isHalt = false`,
and the memory image left by the loader. -/
def initial (memory : Nat → Nat) : State :=
  { pc := 0, regs := fun _ => 0, memory := memory, isHalt := false }

/-- The body of `while (!isHalt) { ... }` (lines 285-309): one loop cycle. -/
def cycle (s : State) : State :=
  let instr := s.memory (s.pc &&& 8191)
  let imm := instr &&& 0x1FFF
  let opcode := (instr >>> 13) &&& 0x7
  if opcode = opcodeJ ∧ imm = s.pc then
    { s with isHalt := true }
  else if opcode = opcodeFirst then
    let r := execute_instruction instr s.regs s.pc
    { s with regs := r.1, pc := r.2 }
  else if opcode = opcodeSlti ∨ opcode = opcodeAddi ∨ opcode = opcodeLw
      ∨ opcode = opcodeSw ∨ opcode = opcodeJeq then
    let r := execute_imm_instruction instr s.regs s.pc s.memory
    { s with regs := r.1, pc := r.2.1, memory := r.2.2 }
  else if opcode = opcodeJ ∨ opcode = opcodeJal then
    let r := execute_control_instruction instr s.regs s.pc s.isHalt
    { s with regs := r.1, pc := r.2.1, isHalt := r.2.2 }
  else
    s

/-- One test of the loop condition followed, when it holds, by one cycle. -/
def loopStep (s : State) : State :=
  if s.isHalt then s else cycle s

/-- The state of the loop after at most `n` cycles, started in `s`. -/
def run : Nat → State → State
  | 0, s => s
  | n + 1, s => loopStep (run n s)

/-- Every register and memory word, and the `pc`, is a 16-bit value. -/
def WF (s : State) : Prop :=
  s.pc < 65536 ∧ (∀ r, s.regs r < 65536) ∧ (∀ a, s.memory a < 65536)

/-! ## The same code with every array access bounds-checked

The executors and the loop body once more, with each read `a[i]` and each assignment
`a[i] = v` replaced by an access that fails (`none`) when `i` is not below the declared
size of the array (`NUM_REGS` for `regs`, `MEM_SIZE` for `memory`). -/

/-- The read `a[i]` of an array of `size` elements; `none` when `i` is out of bounds. -/
def readAt (size : Nat) (a : Nat → Nat) (i : Nat) : Option Nat :=
  if i < size then some (a i) else none

/-- The assignment `a[i] = v` to an array of `size` elements; `none` when `i` is out of
bounds. -/
def writeAt (size : Nat) (a : Nat → Nat) (i v : Nat) : Option (Nat → Nat) :=
  if i < size then some (write a i v) else none

/-- The function `execute_instruction` with checked accesses to `regs`. -/
def execute_instruction_checked (instr : Nat) (regs : Nat → Nat) (pc : Nat) :
    Option ((Nat → Nat) × Nat) := do
  let functionCode := instr &&& 0xF
  let regSrcA := (instr >>> 10) &&& 0x7
  let regSrcB := (instr >>> 7) &&& 0x7
  let regDst := (instr >>> 4) &&& 0x7
  let r : (Nat → Nat) × Nat ←
    if functionCode = functionCodeAdd then do
      let a ← readAt NUM_REGS regs regSrcA
      let b ← readAt NUM_REGS regs regSrcB
      let regs1 ← writeAt NUM_REGS regs regDst (u16 (a + b))
      pure (regs1, pc)
    else if functionCode = functionCodeSub then do
      let a ← readAt NUM_REGS regs regSrcA
      let b ← readAt NUM_REGS regs regSrcB
      let regs1 ← writeAt NUM_REGS regs regDst (s16 ((a : Int) - (b : Int)))
      pure (regs1, pc)
    else if functionCode = functionCodeOr then do
      let a ← readAt NUM_REGS regs regSrcA
      let b ← readAt NUM_REGS regs regSrcB
      let regs1 ← writeAt NUM_REGS regs regDst (a ||| b)
      pure (regs1, pc)
    else if functionCode = functionCodeAnd then do
      let a ← readAt NUM_REGS regs regSrcA
      let b ← readAt NUM_REGS regs regSrcB
      let regs1 ← writeAt NUM_REGS regs regDst (a &&& b)
      pure (regs1, pc)
    else if functionCode = functionCodeSlt then do
      let a ← readAt NUM_REGS regs regSrcA
      let b ← readAt NUM_REGS regs regSrcB
      let regs1 ← writeAt NUM_REGS regs regDst (if a < b then 1 else 0)
      pure (regs1, pc)
    else if functionCode = functionCodeJr then do
      let a ← readAt NUM_REGS regs ((instr >>> 10) &&& 0x7)
      pure (regs, s16 ((a : Int) - 1))
    else
      pure (regs, pc)
  let regs2 ← writeAt NUM_REGS r.1 0 0
  pure (regs2, u16 (r.2 + 1))

/-- The function `execute_imm_instruction` with checked accesses to `regs` and
`memory`. -/
def execute_imm_instruction_checked (instr : Nat) (regs : Nat → Nat) (pc : Nat)
    (memory : Nat → Nat) : Option ((Nat → Nat) × Nat × (Nat → Nat)) := do
  let opcode := (instr >>> 13) &&& 0x7
  let regSrc := (instr >>> 10) &&& 0x7
  let regDst := (instr >>> 7) &&& 0x7
  let imm := signExtend instr
  let r : (Nat → Nat) × Nat × (Nat → Nat) ←
    if opcode = opcodeSlti then do
      let a ← readAt NUM_REGS regs regSrc
      let regs1 ← writeAt NUM_REGS regs regDst (if a < imm then 1 else 0)
      pure (regs1, u16 (pc + 1), memory)
    else if opcode = opcodeLw then do
      let regAddr := (instr >>> 9) &&& 0x7
      let regDst := (instr >>> 6) &&& 0x7
      let imm := signExtend instr
      let b ← readAt NUM_REGS regs regAddr
      let loadAddr := (b + imm) &&& 8191
      let regs1 ←
        if loadAddr < 1 <<< 13 then do
          let w ← readAt MEM_SIZE memory loadAddr
          writeAt NUM_REGS regs regDst w
        else pure regs
      pure (regs1, u16 (pc + 1), memory)
    else if opcode = opcodeSw then do
      let regAddr := (instr >>> 9) &&& 0x7
      let regSrc := (instr >>> 6) &&& 0x7
      let imm := signExtend instr
      let b ← readAt NUM_REGS regs regAddr
      let storeAddr := (b + imm) &&& 8191
      let memory1 ←
        if storeAddr < 1 <<< 13 then do
          let v ← readAt NUM_REGS regs regSrc
          writeAt MEM_SIZE memory storeAddr v
        else pure memory
      pure (regs, u16 (pc + 1), memory1)
    else if opcode = opcodeJeq then do
      let a ← readAt NUM_REGS regs regSrc
      let b ← readAt NUM_REGS regs regDst
      if a = b then
        pure (regs, u16 (pc + 1 + imm), memory)
      else
        pure (regs, u16 (pc + 1), memory)
    else if opcode = opcodeAddi then do
      let a ← readAt NUM_REGS regs regSrc
      let regs1 ← writeAt NUM_REGS regs regDst (u16 (a + imm))
      pure (regs1, u16 (pc + 1), memory)
    else
      pure (regs, u16 (pc + 1), memory)
  let regs2 ← writeAt NUM_REGS r.1 0 0
  pure (regs2, r.2.1, r.2.2)

/-- The function `execute_control_instruction` with checked accesses to `regs`. -/
def execute_control_instruction_checked (instr : Nat) (regs : Nat → Nat) (pc : Nat)
    (isHalt : Bool) : Option ((Nat → Nat) × Nat × Bool) := do
  let opcode := (instr >>> 13) &&& 0x7
  let imm := instr &&& 0x1FFF
  let r : (Nat → Nat) × Nat × Bool ←
    if opcode = opcodeJ then
      if imm = pc then pure (regs, pc, true) else pure (regs, imm, isHalt)
    else if opcode = opcodeJal then do
      let regs1 ← writeAt NUM_REGS regs 7 (u16 (pc + 1))
      pure (regs1, imm, isHalt)
    else
      pure (regs, pc, isHalt)
  let regs2 ← writeAt NUM_REGS r.1 0 0
  pure (regs2, r.2.1, r.2.2)

/-- The loop body with a checked instruction fetch and the checked executors. -/
def cycle_checked (s : State) : Option State := do
  let instr ← readAt MEM_SIZE s.memory (s.pc &&& 8191)
  let imm := instr &&& 0x1FFF
  let opcode := (instr >>> 13) &&& 0x7
  if opcode = opcodeJ ∧ imm = s.pc then
    pure { s with isHalt := true }
  else if opcode = opcodeFirst then do
    let r ← execute_instruction_checked instr s.regs s.pc
    pure { s with regs := r.1, pc := r.2 }
  else if opcode = opcodeSlti ∨ opcode = opcodeAddi ∨ opcode = opcodeLw
      ∨ opcode = opcodeSw ∨ opcode = opcodeJeq then do
    let r ← execute_imm_instruction_checked instr s.regs s.pc s.memory
    pure { s with regs := r.1, pc := r.2.1, memory := r.2.2 }
  else if opcode = opcodeJ ∨ opcode = opcodeJal then do
    let r ← execute_control_instruction_checked instr s.regs s.pc s.isHalt
    pure { s with regs := r.1, pc := r.2.1, isHalt := r.2.2 }
  else
    pure s

/-! ## The loop with a single halt check

The design note of the specification: the loop without the pre-dispatch halt check of
line 299, in which every `j` is dispatched to `execute_control_instruction` and the loop
stops on the flag that executor sets. -/

/-- The loop body without the pre-dispatch halt check (lines 299-302 removed). -/
def cycle_without_precheck (s : State) : State :=
  let instr := s.memory (s.pc &&& 8191)
  let opcode := (instr >>> 13) &&& 0x7
  if opcode = opcodeFirst then
    let r := execute_instruction instr s.regs s.pc
    { s with regs := r.1, pc := r.2 }
  else if opcode = opcodeSlti ∨ opcode = opcodeAddi ∨ opcode = opcodeLw
      ∨ opcode = opcodeSw ∨ opcode = opcodeJeq then
    let r := execute_imm_instruction instr s.regs s.pc s.memory
    { s with regs := r.1, pc := r.2.1, memory := r.2.2 }
  else if opcode = opcodeJ ∨ opcode = opcodeJal then
    let r := execute_control_instruction instr s.regs s.pc s.isHalt
    { s with regs := r.1, pc := r.2.1, isHalt := r.2.2 }
  else
    s

/-- One test of the loop condition followed, when it holds, by one cycle of the loop
without the pre-dispatch halt check. -/
def loopStep_without_precheck (s : State) : State :=
  if s.isHalt then s else cycle_without_precheck s

/-- The state of the loop without the pre-dispatch halt check after at most `n` cycles. -/
def run_without_precheck : Nat → State → State
  | 0, s => s
  | n + 1, s => loopStep_without_precheck (run_without_precheck n s)

/-! ## Specification-side readings -/

/-- The two's-complement value of a 7-bit field. -/
def twos7 (f : Nat) : Int := if f < 64 then (f : Int) else (f : Int) - 128

/-- A 16-bit value read as a signed two's-complement integer. -/
def toSigned16 (w : Nat) : Int := if w < 32768 then (w : Int) else (w : Int) - 65536

/-- The memory image that holds the words of `prog` from address 0 on and 0 elsewhere. -/
def image (prog : List Nat) : Nat → Nat := fun a => prog.getD a 0

/-- Address `a` of `memory` holds a `j` instruction (opcode 010) whose 13-bit target
is `a`. -/
def selfJump (memory : Nat → Nat) (a : Nat) : Prop :=
  memory a / 8192 % 8 = 2 ∧ memory a % 8192 = a

instance (memory : Nat → Nat) (a : Nat) : Decidable (selfJump memory a) := by
  unfold selfJump; infer_instance

/-- The effective address of the specification: `(b + s) mod 8192`, with the mathematical
non-negative remainder. -/
def effectiveAddress (b : Nat) (s : Int) : Nat := (((b : Int) + s) % 8192).toNat

/-! ## Programs and states used as examples -/

/-- The program `lw $2, 5($0); sw $2, 3($0); nop; nop; nop; (data) 0x4003`: it copies the
word `j 3` from address 5 to address 3 and then runs into it. -/
def storedHaltImage : Nat → Nat := image [0x8085, 0xA083, 0, 0, 0, 0x4003]

/-- The program `addi $1, $0, -1; jr $1` with the word `j 8191` at address 8191. -/
def highPcImage : Nat → Nat :=
  fun a => if a = 0 then 0x20FF else if a = 1 then 0x0408 else if a = 8191 then 0x5FFF else 0

/-- The program `addi $2, $0, 7; sw $2, 5($0); j 0`: an endless loop that stores 7 at
address 5 in every round. Its `j` at address 2 targets address 0. -/
def storingLoopImage : Nat → Nat := image [0x2107, 0xA085, 0x4000]

/-- The program `addi $1, $0, 5; j 0`: an endless loop without `sw`. -/
def plainLoopImage : Nat → Nat := image [0x2085, 0x4000]

/-- A state about to execute `sw $2, 3($0)`, with register 2 equal to 9. -/
def storeState : State :=
  { pc := 0, regs := (fun r => if r = 2 then 9 else 0), memory := image [0xA083],
    isHalt := false }

/-! ## Bit fields as quotients and remainders -/

theorem and_8191 (x : Nat) : x &&& 8191 = x % 8192 :=
  Nat.and_pow_two_sub_one_eq_mod x 13

theorem and_1FFF (x : Nat) : x &&& 0x1FFF = x % 8192 :=
  Nat.and_pow_two_sub_one_eq_mod x 13

theorem and_7F (x : Nat) : x &&& 0x7F = x % 128 :=
  Nat.and_pow_two_sub_one_eq_mod x 7

theorem and_F (x : Nat) : x &&& 0xF = x % 16 :=
  Nat.and_pow_two_sub_one_eq_mod x 4

theorem and_7 (x : Nat) : x &&& 0x7 = x % 8 :=
  Nat.and_pow_two_sub_one_eq_mod x 3

theorem field_eq (x k : Nat) : (x >>> k) &&& 0x7 = x / 2 ^ k % 8 := by
  rw [and_7, Nat.shiftRight_eq_div_pow]

theorem fld4 (x : Nat) : (x >>> 4) &&& 0x7 = x / 16 % 8 := field_eq x 4

theorem fld6 (x : Nat) : (x >>> 6) &&& 0x7 = x / 64 % 8 := field_eq x 6

theorem fld7 (x : Nat) : (x >>> 7) &&& 0x7 = x / 128 % 8 := field_eq x 7

theorem fld9 (x : Nat) : (x >>> 9) &&& 0x7 = x / 512 % 8 := field_eq x 9

theorem fld10 (x : Nat) : (x >>> 10) &&& 0x7 = x / 1024 % 8 := field_eq x 10

theorem fld13 (x : Nat) : (x >>> 13) &&& 0x7 = x / 8192 % 8 := field_eq x 13

/-! ## Register 0 -/

theorem write_same (a : Nat → Nat) (i v : Nat) : write a i v i = v := by
  simp [write]

theorem write_other (a : Nat → Nat) (i v j : Nat) (h : j ≠ i) : write a i v j = a j := by
  simp [write, h]

theorem execute_instruction_reg0 (instr : Nat) (regs : Nat → Nat) (pc : Nat) :
    (execute_instruction instr regs pc).1 0 = 0 := by
  simp [execute_instruction, write]

theorem execute_imm_instruction_reg0 (instr : Nat) (regs : Nat → Nat) (pc : Nat)
    (memory : Nat → Nat) : (execute_imm_instruction instr regs pc memory).1 0 = 0 := by
  simp [execute_imm_instruction, write]

theorem execute_control_instruction_reg0 (instr : Nat) (regs : Nat → Nat) (pc : Nat)
    (isHalt : Bool) : (execute_control_instruction instr regs pc isHalt).1 0 = 0 := by
  simp [execute_control_instruction, write]

theorem cycle_reg0 (s : State) (h : s.regs 0 = 0) : (cycle s).regs 0 = 0 := by
  unfold cycle
  simp only
  split_ifs
  · exact h
  · simp only [execute_instruction_reg0]
  · simp only [execute_imm_instruction_reg0]
  · simp only [execute_control_instruction_reg0]
  · exact h

theorem loopStep_reg0 (s : State) (h : s.regs 0 = 0) : (loopStep s).regs 0 = 0 := by
  unfold loopStep
  split_ifs
  · exact h
  · exact cycle_reg0 s h

theorem run_reg0 (s : State) (h : s.regs 0 = 0) (n : Nat) : (run n s).regs 0 = 0 := by
  induction n with
  | zero => exact h
  | succ n ih => exact loopStep_reg0 _ ih

/-- C1. Register 0 invariant: whatever the instruction word, the `pc`, the memory and the
register file on entry (register 0 may be non-zero, the destination field may name
register 0), register 0 is 0 when `execute_instruction`, `execute_imm_instruction` or
`execute_control_instruction` returns; hence register 0 is 0 in every state that the
simulation loop reaches from the initial state, for any memory image. -/
theorem C1_register_zero_invariant :
    (∀ (instr : Nat) (regs : Nat → Nat) (pc : Nat),
        (execute_instruction instr regs pc).1 0 = 0) ∧
    (∀ (instr : Nat) (regs : Nat → Nat) (pc : Nat) (memory : Nat → Nat),
        (execute_imm_instruction instr regs pc memory).1 0 = 0) ∧
    (∀ (instr : Nat) (regs : Nat → Nat) (pc : Nat) (isHalt : Bool),
        (execute_control_instruction instr regs pc isHalt).1 0 = 0) ∧
    (∀ (memory : Nat → Nat) (n : Nat), (run n (initial memory)).regs 0 = 0) :=
  ⟨execute_instruction_reg0, execute_imm_instruction_reg0,
    execute_control_instruction_reg0, fun memory n => run_reg0 (initial memory) rfl n⟩

/-! ## The halt rule -/

/-- The halt test of the loop (line 299) on the word fetched in state `s`. -/
theorem cycle_halt_iff (s : State) (h : s.isHalt = false) :
    (cycle s).isHalt = true ↔
      ((s.memory (s.pc &&& 8191) >>> 13) &&& 0x7 = opcodeJ ∧
        s.memory (s.pc &&& 8191) &&& 0x1FFF = s.pc) := by
  unfold cycle
  simp only
  split_ifs with h1 h2 h3 h4
  · simp [h1]
  · simp [h, h1]
  · simp [h, h1]
  · have hc : (execute_control_instruction (s.memory (s.pc &&& 8191)) s.regs s.pc
        s.isHalt).2.2 = false := by
      simp only [execute_control_instruction]
      split_ifs with h5 h6 h7
      · exact absurd ⟨h5, h6⟩ h1
      · exact h
      · exact h
      · exact h
    simp [hc, h1]
  · simp [h, h1]

theorem cycle_of_halt (s : State)
    (h : (s.memory (s.pc &&& 8191) >>> 13) &&& 0x7 = opcodeJ ∧
        s.memory (s.pc &&& 8191) &&& 0x1FFF = s.pc) :
    cycle s = { s with isHalt := true } := by
  unfold cycle
  simp only
  rw [if_pos h]

/-- C2. Halt rule of the loop: from a running state, one cycle ends halted if and only
if the word fetched from `memory[pc mod 8192]` has opcode class 010 (bits 13-15) and its
13-bit target (bits 0-12) equals the current `pc`; and when it does, the cycle executes
nothing: `pc`, the registers and the memory are what they were. -/
theorem C2_halt_rule (s : State) (h : s.isHalt = false) :
    ((cycle s).isHalt = true ↔
      (s.memory (s.pc % 8192) / 8192 % 8 = 2 ∧ s.memory (s.pc % 8192) % 8192 = s.pc)) ∧
    ((cycle s).isHalt = true →
      (cycle s).pc = s.pc ∧ (cycle s).regs = s.regs ∧ (cycle s).memory = s.memory) := by
  have key := cycle_halt_iff s h
  rw [field_eq, and_8191, and_1FFF] at key
  refine ⟨key, fun hh => ?_⟩
  have h2 := key.mp hh
  rw [← and_8191, ← and_1FFF] at h2
  have h3 : (s.memory (s.pc &&& 8191) >>> 13) &&& 0x7 = opcodeJ := by
    rw [field_eq]; exact h2.1
  rw [cycle_of_halt s ⟨h3, h2.2⟩]
  exact ⟨rfl, rfl, rfl⟩

/-- C2 at the one-word program `j 0`, from the initial state. -/
theorem C2_halt_rule_witness :
    ((cycle (initial (image [0x4000]))).isHalt = true ↔
      ((initial (image [0x4000])).memory ((initial (image [0x4000])).pc % 8192) / 8192 % 8
          = 2 ∧
        (initial (image [0x4000])).memory ((initial (image [0x4000])).pc % 8192) % 8192
          = (initial (image [0x4000])).pc)) ∧
    ((cycle (initial (image [0x4000]))).isHalt = true →
      (cycle (initial (image [0x4000]))).pc = (initial (image [0x4000])).pc ∧
      (cycle (initial (image [0x4000]))).regs = (initial (image [0x4000])).regs ∧
      (cycle (initial (image [0x4000]))).memory = (initial (image [0x4000])).memory) :=
  C2_halt_rule (initial (image [0x4000])) rfl

/-! ## Memory is written by `sw` only -/

theorem execute_imm_instruction_memory (instr : Nat) (regs : Nat → Nat) (pc : Nat)
    (memory : Nat → Nat) (h : (instr >>> 13) &&& 0x7 ≠ opcodeSw) :
    (execute_imm_instruction instr regs pc memory).2.2 = memory := by
  simp only [execute_imm_instruction]
  split_ifs <;> rfl

theorem cycle_memory (s : State)
    (h : (s.memory (s.pc &&& 8191) >>> 13) &&& 0x7 ≠ opcodeSw) :
    (cycle s).memory = s.memory := by
  unfold cycle
  simp only
  split_ifs
  · rfl
  · rfl
  · simp only [execute_imm_instruction_memory _ _ _ _ h]
  · rfl
  · rfl

/-- A cycle that halts has fetched a self-jump from an address below 8192. -/
theorem selfJump_of_cycle_halt (s : State) (h : s.isHalt = false)
    (hh : (cycle s).isHalt = true) : s.pc < 8192 ∧ selfJump s.memory s.pc := by
  have key := (cycle_halt_iff s h).mp hh
  rw [field_eq, and_8191, and_1FFF] at key
  have hlt : s.pc < 8192 := by
    have := Nat.mod_lt (s.memory (s.pc % 8192)) (by decide : 0 < 8192)
    omega
  rw [Nat.mod_eq_of_lt hlt] at key
  exact ⟨hlt, key⟩

/-- A memory image without `sw` words (opcode 101) below address 8192 is never changed by
the run. -/
theorem run_memory_of_no_sw (memory : Nat → Nat)
    (h : ∀ a, a < 8192 → memory a / 8192 % 8 ≠ 5) (n : Nat) :
    (run n (initial memory)).memory = memory := by
  induction n with
  | zero => rfl
  | succ n ih =>
    show (loopStep (run n (initial memory))).memory = memory
    unfold loopStep
    split_ifs
    · exact ih
    · rw [cycle_memory, ih]
      rw [ih, field_eq, and_8191]
      exact h _ (Nat.mod_lt _ (by decide))

theorem storedHaltImage_no_selfJump (a : Nat) : ¬ selfJump storedHaltImage a := by
  by_cases h : a < 6
  · interval_cases a <;> decide
  · have : storedHaltImage a = 0 := by
      simp only [storedHaltImage, image]
      exact List.getD_eq_default _ _ (by simpa using h)
    simp [selfJump, this]

/-- C3 refuted: no address of `storedHaltImage` holds a `j` whose target is that address,
and yet the run from the initial state is halted after four cycles (the `sw` at address 1
writes `j 3` to address 3). -/
theorem C3_counterexample :
    (∀ a, a < 8192 → ¬ selfJump storedHaltImage a) ∧
    (run 3 (initial storedHaltImage)).isHalt = false ∧
    (run 4 (initial storedHaltImage)).isHalt = true ∧
    (run 4 (initial storedHaltImage)).pc = 3 ∧
    (run 4 (initial storedHaltImage)).memory 3 = 0x4003 :=
  ⟨fun a _ => storedHaltImage_no_selfJump a, by decide, by decide, by decide, by decide⟩

/-- A run in which no memory image ever holds a self-jump never halts. -/
theorem running_of_no_selfJump (memory : Nat → Nat)
    (h : ∀ n a, a < 8192 → ¬ selfJump (run n (initial memory)).memory a) (n : Nat) :
    (run n (initial memory)).isHalt = false := by
  induction n with
  | zero => rfl
  | succ n ih =>
    show (loopStep (run n (initial memory))).isHalt = false
    unfold loopStep
    rw [if_neg (by simp [ih])]
    by_contra hc
    have hc2 : (cycle (run n (initial memory))).isHalt = true := by simpa using hc
    have := selfJump_of_cycle_halt _ ih hc2
    exact h n _ this.1 this.2

/-- C3, amended. If in no memory image that arises during the run (the initial one and
those left by `sw`) an address `a < 8192` holds a `j` instruction whose 13-bit target is
`a`, then the run from the initial state never halts: after every number of cycles the
loop is still running. In particular this is so for an initial memory image in which no
address `a < 8192` holds such a `j` and no address `a < 8192` holds a `sw` word
(opcode 101). -/
theorem C3_no_idiom_runs_forever (memory : Nat → Nat) :
    ((∀ n a, a < 8192 → ¬ selfJump (run n (initial memory)).memory a) →
      ∀ n, (run n (initial memory)).isHalt = false) ∧
    ((∀ a, a < 8192 → ¬ selfJump memory a) →
      (∀ a, a < 8192 → memory a / 8192 % 8 ≠ 5) →
      ∀ n, (run n (initial memory)).isHalt = false) := by
  refine ⟨running_of_no_selfJump memory, fun hj hsw => ?_⟩
  apply running_of_no_selfJump memory
  intro n a ha
  rw [run_memory_of_no_sw memory hsw n]
  exact hj a ha

/-! ## The halt idiom and the 16-bit `pc` -/

/-- A `j` whose target differs from the `pc` is executed by
`execute_control_instruction`: the `pc` becomes the target. -/
theorem cycle_j (s : State)
    (hop : (s.memory (s.pc &&& 8191) >>> 13) &&& 0x7 = opcodeJ)
    (hne : s.memory (s.pc &&& 8191) &&& 0x1FFF ≠ s.pc) :
    cycle s = { s with regs := write s.regs 0 0, pc := s.memory (s.pc &&& 8191) &&& 0x1FFF } := by
  unfold cycle
  simp only
  rw [if_neg (fun hc => hne hc.2), if_neg (by rw [hop]; decide), if_neg (by rw [hop]; decide),
    if_pos (Or.inl hop)]
  simp only [execute_control_instruction]
  rw [if_pos hop, if_neg hne]

/-- C4 refuted: after two cycles of `highPcImage` the loop is running with `pc = 65535`;
the word fetched from `pc mod 8192 = 8191` is `j 8191`, a `j` whose target is the address
it was fetched from, and the cycle does not halt: it jumps to 8191. -/
theorem C4_counterexample :
    (run 2 (initial highPcImage)).isHalt = false ∧
    (run 2 (initial highPcImage)).pc = 65535 ∧
    (run 2 (initial highPcImage)).memory ((run 2 (initial highPcImage)).pc % 8192) / 8192 % 8
      = 2 ∧
    (run 2 (initial highPcImage)).memory ((run 2 (initial highPcImage)).pc % 8192) % 8192
      = (run 2 (initial highPcImage)).pc % 8192 ∧
    (cycle (run 2 (initial highPcImage))).isHalt = false ∧
    (cycle (run 2 (initial highPcImage))).pc = 8191 := by
  decide

/-- C4, amended. In a running state whose fetched word (at `pc mod 8192`) is a `j` with
13-bit target `pc mod 8192`: if `pc < 8192` the cycle halts; if `pc ≥ 8192` the cycle
does not halt but jumps, leaving `pc = pc mod 8192`, the memory unchanged and the loop
running, and the cycle after it halts. -/
theorem C4_halt_idiom (s : State) (h : s.isHalt = false)
    (hop : s.memory (s.pc % 8192) / 8192 % 8 = 2)
    (htgt : s.memory (s.pc % 8192) % 8192 = s.pc % 8192) :
    (s.pc < 8192 → (cycle s).isHalt = true) ∧
    (8192 ≤ s.pc →
      (cycle s).isHalt = false ∧ (cycle s).pc = s.pc % 8192 ∧
      (cycle s).memory = s.memory ∧ (cycle (cycle s)).isHalt = true) := by
  have hop1 : (s.memory (s.pc &&& 8191) >>> 13) &&& 0x7 = opcodeJ := by
    rw [field_eq, and_8191]; exact hop
  have htgt1 : s.memory (s.pc &&& 8191) &&& 0x1FFF = s.pc % 8192 := by
    rw [and_1FFF, and_8191]; exact htgt
  constructor
  · intro hlt
    rw [cycle_halt_iff s h]
    exact ⟨hop1, by rw [htgt1, Nat.mod_eq_of_lt hlt]⟩
  · intro hge
    have hne : s.memory (s.pc &&& 8191) &&& 0x1FFF ≠ s.pc := by
      rw [htgt1]
      have := Nat.mod_lt s.pc (by decide : 0 < 8192)
      omega
    have hc := cycle_j s hop1 hne
    rw [htgt1] at hc
    have hlt : s.pc % 8192 < 8192 := Nat.mod_lt _ (by decide)
    refine ⟨by rw [hc]; exact h, by rw [hc], by rw [hc], ?_⟩
    rw [hc]
    apply (cycle_halt_iff
      { pc := s.pc % 8192, regs := write s.regs 0 0, memory := s.memory, isHalt := s.isHalt }
      h).mpr
    show (s.memory ((s.pc % 8192) &&& 8191) >>> 13) &&& 0x7 = opcodeJ ∧
      s.memory ((s.pc % 8192) &&& 8191) &&& 0x1FFF = s.pc % 8192
    rw [and_8191 (s.pc % 8192), Nat.mod_mod, ← and_8191 s.pc]
    exact ⟨hop1, by rw [htgt1, and_8191]⟩

/-- C4 amended, at the state that `highPcImage` reaches after two cycles
(`pc = 65535`, fetched word `j 8191`). -/
theorem C4_halt_idiom_witness :
    (run 2 (initial highPcImage)).isHalt = false ∧
    ((run 2 (initial highPcImage)).pc < 8192 →
      (cycle (run 2 (initial highPcImage))).isHalt = true) ∧
    (8192 ≤ (run 2 (initial highPcImage)).pc →
      (cycle (run 2 (initial highPcImage))).isHalt = false ∧
      (cycle (run 2 (initial highPcImage))).pc = (run 2 (initial highPcImage)).pc % 8192 ∧
      (cycle (run 2 (initial highPcImage))).memory = (run 2 (initial highPcImage)).memory ∧
      (cycle (cycle (run 2 (initial highPcImage)))).isHalt = true) :=
  ⟨by decide, C4_halt_idiom (run 2 (initial highPcImage)) (by decide) (by decide) (by decide)⟩

/-! ## Dispatch of the loop -/

theorem cycle_alu (s : State)
    (hop : (s.memory (s.pc &&& 8191) >>> 13) &&& 0x7 = opcodeFirst) :
    cycle s =
      { s with
        regs := (execute_instruction (s.memory (s.pc &&& 8191)) s.regs s.pc).1,
        pc := (execute_instruction (s.memory (s.pc &&& 8191)) s.regs s.pc).2 } := by
  unfold cycle
  simp only
  rw [if_neg (fun hc => by rw [hop] at hc; exact absurd hc.1 (by decide)), if_pos hop]

theorem cycle_imm (s : State)
    (hop : (s.memory (s.pc &&& 8191) >>> 13) &&& 0x7 = opcodeSlti
      ∨ (s.memory (s.pc &&& 8191) >>> 13) &&& 0x7 = opcodeAddi
      ∨ (s.memory (s.pc &&& 8191) >>> 13) &&& 0x7 = opcodeLw
      ∨ (s.memory (s.pc &&& 8191) >>> 13) &&& 0x7 = opcodeSw
      ∨ (s.memory (s.pc &&& 8191) >>> 13) &&& 0x7 = opcodeJeq) :
    cycle s =
      { s with
        regs := (execute_imm_instruction (s.memory (s.pc &&& 8191)) s.regs s.pc s.memory).1,
        pc := (execute_imm_instruction (s.memory (s.pc &&& 8191)) s.regs s.pc s.memory).2.1,
        memory :=
          (execute_imm_instruction (s.memory (s.pc &&& 8191)) s.regs s.pc s.memory).2.2 } := by
  have h2 : (s.memory (s.pc &&& 8191) >>> 13) &&& 0x7 ≠ opcodeJ := by
    rcases hop with h | h | h | h | h <;> rw [h] <;> decide
  have h0 : (s.memory (s.pc &&& 8191) >>> 13) &&& 0x7 ≠ opcodeFirst := by
    rcases hop with h | h | h | h | h <;> rw [h] <;> decide
  unfold cycle
  simp only
  rw [if_neg (fun hc => h2 hc.1), if_neg h0, if_pos hop]

/-! ## Sign extension -/

theorem signExtend_table :
    ∀ f, f < 128 →
      (if f &&& 0x40 ≠ 0 then f ||| 0xFF80 else f) = if f < 64 then f else f + 65408 := by
  decide

theorem signExtend_eq (instr : Nat) :
    signExtend instr = if instr % 128 < 64 then instr % 128 else instr % 128 + 65408 := by
  unfold signExtend
  simp only
  rw [and_7F]
  exact signExtend_table _ (Nat.mod_lt _ (by decide))

theorem bit6_iff (instr : Nat) : instr / 64 % 2 = 1 ↔ ¬ instr % 128 < 64 := by
  omega

theorem toSigned16_signExtend (instr : Nat) :
    toSigned16 (signExtend instr) = twos7 (instr % 128) := by
  rw [signExtend_eq]
  have hlt : instr % 128 < 128 := Nat.mod_lt _ (by decide)
  unfold toSigned16 twos7
  split_ifs <;> omega

/-- C7. Sign extension of the 7-bit immediate: the 16-bit value that
`execute_imm_instruction` computes from bits 0-6 (OR with `0xFF80` when bit 6 is set), read
as a signed 16-bit integer, is the two's-complement value of the 7-bit field; it lies in
[-64, 63], and it lies in [-64, -1] exactly when bit 6 of the word is set. -/
theorem C7_sign_extension (instr : Nat) :
    signExtend instr < 65536 ∧
    toSigned16 (signExtend instr) = twos7 (instr % 128) ∧
    (-64 ≤ toSigned16 (signExtend instr) ∧ toSigned16 (signExtend instr) ≤ 63) ∧
    ((-64 ≤ toSigned16 (signExtend instr) ∧ toSigned16 (signExtend instr) ≤ -1) ↔
      instr / 64 % 2 = 1) := by
  rw [bit6_iff, signExtend_eq]
  have hlt : instr % 128 < 128 := Nat.mod_lt _ (by decide)
  unfold toSigned16 twos7
  split_ifs <;> omega

/-! ## Load and store -/

/-- The index expression of lines 160 and 175 is the effective address. -/
theorem index_eq_effectiveAddress (instr b : Nat) :
    (b + signExtend instr) &&& 8191 = effectiveAddress b (twos7 (instr % 128)) := by
  rw [and_8191, signExtend_eq]
  have hlt : instr % 128 < 128 := Nat.mod_lt _ (by decide)
  unfold effectiveAddress twos7
  split_ifs <;> omega

theorem effectiveAddress_lt (b : Nat) (s : Int) : effectiveAddress b s < 8192 := by
  unfold effectiveAddress
  omega

theorem execute_imm_instruction_lw (instr : Nat) (regs : Nat → Nat) (pc : Nat)
    (memory : Nat → Nat) (hop : (instr >>> 13) &&& 0x7 = opcodeLw) :
    execute_imm_instruction instr regs pc memory =
      (write (write regs ((instr >>> 6) &&& 0x7)
          (memory (effectiveAddress (regs ((instr >>> 9) &&& 0x7)) (twos7 (instr % 128))))) 0 0,
        u16 (pc + 1), memory) := by
  have hlt := effectiveAddress_lt (regs ((instr >>> 9) &&& 0x7)) (twos7 (instr % 128))
  simp only [execute_imm_instruction]
  rw [if_neg (by rw [hop]; decide), if_pos hop, index_eq_effectiveAddress,
    if_pos (by simpa using hlt)]

theorem execute_imm_instruction_sw (instr : Nat) (regs : Nat → Nat) (pc : Nat)
    (memory : Nat → Nat) (hop : (instr >>> 13) &&& 0x7 = opcodeSw) :
    execute_imm_instruction instr regs pc memory =
      (write regs 0 0, u16 (pc + 1),
        write memory (effectiveAddress (regs ((instr >>> 9) &&& 0x7)) (twos7 (instr % 128)))
          (regs ((instr >>> 6) &&& 0x7))) := by
  have hlt := effectiveAddress_lt (regs ((instr >>> 9) &&& 0x7)) (twos7 (instr % 128))
  simp only [execute_imm_instruction]
  rw [if_neg (by rw [hop]; decide), if_neg (by rw [hop]; decide), if_pos hop,
    index_eq_effectiveAddress, if_pos (by simpa using hlt)]

/-- C5. Load/store effective address. For an instruction word with opcode 100 (lw) or
101 (sw), with `b` the value of the register named by bits 9-11 and `s` the
two's-complement value of bits 0-6: `s` is in [-64, 63]; the index computed by the code is
`(b + s) mod 8192` (non-negative remainder), so `b + s = 8192` gives 0 and `b = 0`,
`s = -1` gives 8191; `lw` leaves `memory[(b + s) mod 8192]` in the register named by bits
6-8 when that is not register 0, leaves the memory as it was and advances `pc` by 1
(mod 65536); `sw` writes at exactly that index. -/
theorem C5_effective_address (instr : Nat) (regs : Nat → Nat) (pc : Nat)
    (memory : Nat → Nat) :
    (-64 ≤ twos7 (instr % 128) ∧ twos7 (instr % 128) ≤ 63) ∧
    (regs (instr / 512 % 8) + signExtend instr) &&& 8191
      = effectiveAddress (regs (instr / 512 % 8)) (twos7 (instr % 128)) ∧
    effectiveAddress (regs (instr / 512 % 8)) (twos7 (instr % 128)) < 8192 ∧
    ((regs (instr / 512 % 8) : Int) + twos7 (instr % 128) = 8192 →
      effectiveAddress (regs (instr / 512 % 8)) (twos7 (instr % 128)) = 0) ∧
    (regs (instr / 512 % 8) = 0 → twos7 (instr % 128) = -1 →
      effectiveAddress (regs (instr / 512 % 8)) (twos7 (instr % 128)) = 8191) ∧
    (instr / 8192 % 8 = 4 →
      (instr / 64 % 8 ≠ 0 →
        (execute_imm_instruction instr regs pc memory).1 (instr / 64 % 8)
          = memory (effectiveAddress (regs (instr / 512 % 8)) (twos7 (instr % 128)))) ∧
      (execute_imm_instruction instr regs pc memory).2.1 = (pc + 1) % 65536 ∧
      (execute_imm_instruction instr regs pc memory).2.2 = memory) ∧
    (instr / 8192 % 8 = 5 →
      (execute_imm_instruction instr regs pc memory).2.2
        = write memory (effectiveAddress (regs (instr / 512 % 8)) (twos7 (instr % 128)))
            (regs (instr / 64 % 8))) := by
  have hlt : instr % 128 < 128 := Nat.mod_lt _ (by decide)
  refine ⟨?_, index_eq_effectiveAddress _ _, effectiveAddress_lt _ _, ?_, ?_, ?_, ?_⟩
  · unfold twos7; split_ifs <;> omega
  · intro h; unfold effectiveAddress; rw [h]; decide
  · intro hb hs; unfold effectiveAddress; rw [hb, hs]; decide
  · intro h4
    have h4a : (instr >>> 13) &&& 0x7 = opcodeLw := by rw [field_eq]; exact h4
    rw [execute_imm_instruction_lw instr regs pc memory h4a, field_eq, field_eq]
    refine ⟨fun hd => ?_, rfl, rfl⟩
    show write (write regs (instr / 2 ^ 6 % 8) _) 0 0 (instr / 64 % 8) = _
    rw [write_other _ _ _ _ hd]
    exact write_same _ _ _
  · intro h5
    have h5a : (instr >>> 13) &&& 0x7 = opcodeSw := by rw [field_eq]; exact h5
    rw [execute_imm_instruction_sw instr regs pc memory h5a, field_eq, field_eq]
    rfl

/-- C5 at `lw $2, -1($0)` (word `1000 0000 1111 1111`, data register field 011 because
bit 6 belongs to the immediate too) with all registers 0: the index is 8191. -/
theorem C5_effective_address_witness :
    (0x80FF / 8192 % 8 = 4 ∨ 0x80FF / 8192 % 8 = 5) ∧
    effectiveAddress ((fun _ => 0 : Nat → Nat) (0x80FF / 512 % 8)) (twos7 (0x80FF % 128))
      = 8191 ∧
    (execute_imm_instruction 0x80FF (fun _ => 0) 7 (fun a => a)).1 (0x80FF / 64 % 8) = 8191 :=
  have h := C5_effective_address 0x80FF (fun _ => 0) 7 (fun a => a)
  ⟨by decide, h.2.2.2.2.1 rfl (by decide), (h.2.2.2.2.2.1 (by decide)).1 (by decide)⟩

/-- C6. Memory is mutated only by stores. In one loop cycle on the word `instr` fetched
from `memory[pc mod 8192]`: unless the opcode of `instr` is 101 (sw) the memory after the
cycle is the memory before it; for sw the word at the effective address becomes the value
of the register named by bits 6-8, every other word is unchanged, every register other
than register 0 is unchanged and `pc` advances by 1 (mod 65536). -/
theorem C6_memory_frame (s : State) :
    (s.memory (s.pc % 8192) / 8192 % 8 ≠ 5 → (cycle s).memory = s.memory) ∧
    (s.memory (s.pc % 8192) / 8192 % 8 = 5 →
      (cycle s).memory
          (effectiveAddress (s.regs (s.memory (s.pc % 8192) / 512 % 8))
            (twos7 (s.memory (s.pc % 8192) % 128)))
        = s.regs (s.memory (s.pc % 8192) / 64 % 8) ∧
      (∀ a, a ≠ effectiveAddress (s.regs (s.memory (s.pc % 8192) / 512 % 8))
            (twos7 (s.memory (s.pc % 8192) % 128)) →
        (cycle s).memory a = s.memory a) ∧
      (∀ r, r ≠ 0 → (cycle s).regs r = s.regs r) ∧
      (cycle s).pc = (s.pc + 1) % 65536) := by
  constructor
  · intro h
    apply cycle_memory
    rw [field_eq, and_8191]
    exact h
  · intro h
    have h5 : (s.memory (s.pc &&& 8191) >>> 13) &&& 0x7 = opcodeSw := by
      rw [field_eq, and_8191]; exact h
    rw [cycle_imm s (Or.inr (Or.inr (Or.inr (Or.inl h5)))),
      execute_imm_instruction_sw _ _ _ _ h5, field_eq, field_eq, and_8191]
    refine ⟨write_same _ _ _, fun a ha => write_other _ _ _ _ ha,
      fun r hr => write_other _ _ _ _ hr, rfl⟩

/-- C6 at the state with `pc = 0`, register 2 equal to 9 and `sw $2, 3($0)` (word
`1010 0000 1000 0011`) at address 0: the cycle writes 9 to address 3. -/
theorem C6_memory_frame_witness :
    storeState.memory (storeState.pc % 8192) / 8192 % 8 = 5 ∧
    (cycle storeState).memory 3 = 9 ∧ (cycle storeState).pc = 1 :=
  ⟨by decide, ((C6_memory_frame storeState).2 (by decide)).1,
    ((C6_memory_frame storeState).2 (by decide)).2.2.2⟩

/-! ## Wraparound arithmetic -/

theorem u16_cast (n : Nat) : ((u16 n : Nat) : Int) = (n : Int) % 65536 := by
  unfold u16
  omega

theorem s16_cast (x : Int) : ((s16 x : Nat) : Int) = x % 65536 := by
  unfold s16
  omega

theorem signExtend_cast (instr : Nat) (b : Nat) :
    ((b + signExtend instr : Nat) : Int) % 65536
      = ((b : Int) + twos7 (instr % 128)) % 65536 := by
  rw [signExtend_eq]
  have hlt : instr % 128 < 128 := Nat.mod_lt _ (by decide)
  unfold twos7
  split_ifs <;> omega

/-- C8. Wraparound arithmetic. For add (function code 0000) and sub (function code 0001)
in `execute_instruction`, and for addi (opcode 001) in `execute_imm_instruction`, when the
destination register is not register 0 it holds afterwards the mathematical result
(`srcA + srcB`, `srcA - srcB`, `src + s` with `s` the signed immediate) reduced modulo
65536, computed from the register values on entry (also when the destination is one of
the sources), and `pc` has advanced by 1 (mod 65536). -/
theorem C8_wraparound (instr : Nat) (regs : Nat → Nat) (pc : Nat) (memory : Nat → Nat) :
    (instr % 16 = 0 → instr / 16 % 8 ≠ 0 →
      (((execute_instruction instr regs pc).1 (instr / 16 % 8) : Nat) : Int)
        = ((regs (instr / 1024 % 8) : Int) + (regs (instr / 128 % 8) : Int)) % 65536 ∧
      (execute_instruction instr regs pc).2 = (pc + 1) % 65536) ∧
    (instr % 16 = 1 → instr / 16 % 8 ≠ 0 →
      (((execute_instruction instr regs pc).1 (instr / 16 % 8) : Nat) : Int)
        = ((regs (instr / 1024 % 8) : Int) - (regs (instr / 128 % 8) : Int)) % 65536 ∧
      (execute_instruction instr regs pc).2 = (pc + 1) % 65536) ∧
    (instr / 8192 % 8 = 1 → instr / 128 % 8 ≠ 0 →
      (((execute_imm_instruction instr regs pc memory).1 (instr / 128 % 8) : Nat) : Int)
        = ((regs (instr / 1024 % 8) : Int) + twos7 (instr % 128)) % 65536 ∧
      (-64 ≤ twos7 (instr % 128) ∧ twos7 (instr % 128) ≤ 63) ∧
      (execute_imm_instruction instr regs pc memory).2.1 = (pc + 1) % 65536) := by
  refine ⟨fun hf hd => ?_, fun hf hd => ?_, fun hop hd => ?_⟩
  · have hf1 : instr &&& 0xF = functionCodeAdd := by rw [and_F]; exact hf
    simp only [execute_instruction]
    rw [if_pos hf1, fld4, fld10, fld7]
    refine ⟨?_, rfl⟩
    show ((write (write regs (instr / 16 % 8) _) 0 0 (instr / 16 % 8) : Nat) : Int) = _
    rw [write_other _ _ _ _ hd, write_same, u16_cast]
    push_cast
    rfl
  · have hf1 : instr &&& 0xF = functionCodeSub := by rw [and_F]; exact hf
    simp only [execute_instruction]
    rw [if_neg (by rw [hf1]; decide), if_pos hf1, fld4, fld10, fld7]
    refine ⟨?_, rfl⟩
    show ((write (write regs (instr / 16 % 8) _) 0 0 (instr / 16 % 8) : Nat) : Int) = _
    rw [write_other _ _ _ _ hd, write_same, s16_cast]
  · have hop1 : (instr >>> 13) &&& 0x7 = opcodeAddi := by rw [field_eq]; exact hop
    have hlt : instr % 128 < 128 := Nat.mod_lt _ (by decide)
    simp only [execute_imm_instruction]
    rw [if_neg (by rw [hop1]; decide), if_neg (by rw [hop1]; decide),
      if_neg (by rw [hop1]; decide), if_neg (by rw [hop1]; decide), if_pos hop1,
      fld10, fld7]
    refine ⟨?_, ?_, rfl⟩
    · show ((write (write regs (instr / 128 % 8) _) 0 0 (instr / 128 % 8) : Nat) : Int) = _
      rw [write_other _ _ _ _ hd, write_same, u16_cast, signExtend_cast]
    · unfold twos7; split_ifs <;> omega

/-- C8 at `add $1, $2, $3` (word `0000 1001 1001 0000`) with 40000 in every register:
register 1 receives 80000 mod 65536 = 14464. -/
theorem C8_wraparound_witness :
    0x0990 % 16 = 0 ∧ 0x0990 / 16 % 8 ≠ 0 ∧
    (((execute_instruction 0x0990 (fun _ => 40000) 0).1 (0x0990 / 16 % 8) : Nat) : Int)
      = ((40000 : Int) + 40000) % 65536 ∧
    (execute_instruction 0x0990 (fun _ => 40000) 0).2 = (0 + 1) % 65536 :=
  ⟨by decide, by decide,
    ((C8_wraparound 0x0990 (fun _ => 40000) 0 (fun _ => 0)).1 (by decide) (by decide)).1,
    ((C8_wraparound 0x0990 (fun _ => 40000) 0 (fun _ => 0)).1 (by decide) (by decide)).2⟩

/-! ## End-to-end runs -/

theorem run_succ_of_running (n : Nat) (s : State) (h : (run n s).isHalt = false) :
    run (n + 1) s = cycle (run n s) := by
  show loopStep (run n s) = _
  unfold loopStep
  rw [if_neg (by simp [h])]

theorem execute_imm_instruction_addi (instr : Nat) (regs : Nat → Nat) (pc : Nat)
    (memory : Nat → Nat) (hop : (instr >>> 13) &&& 0x7 = opcodeAddi) :
    execute_imm_instruction instr regs pc memory =
      (write (write regs (instr / 128 % 8) (u16 (regs (instr / 1024 % 8) + signExtend instr)))
          0 0,
        u16 (pc + 1), memory) := by
  simp only [execute_imm_instruction]
  rw [if_neg (by rw [hop]; decide), if_neg (by rw [hop]; decide),
    if_neg (by rw [hop]; decide), if_neg (by rw [hop]; decide), if_pos hop, fld10, fld7]

/-- C9. Scenario B, generalised. Let word 0 of the memory image be `addi` with source
register 0, destination `d` in 1..7 and 7-bit immediate field `i`, and word 1 be `j 1`
(anything elsewhere). The run from the initial state is still running after its first
cycle (which executes the `addi`) and halted after its second (which executes nothing):
it halts after exactly one executed instruction, with `pc = 1`, register `d` equal to the
sign-extended immediate modulo 65536, every other register 0 and the memory unchanged. -/
theorem C9_scenario_B (memory : Nat → Nat) (d i : Nat) (hd1 : 1 ≤ d) (hd7 : d ≤ 7)
    (hi : i < 128) (h0 : memory 0 = 0x2000 + d * 128 + i) (h1 : memory 1 = 0x4001) :
    (run 1 (initial memory)).isHalt = false ∧
    (run 2 (initial memory)).isHalt = true ∧
    (run 2 (initial memory)).pc = 1 ∧
    (((run 2 (initial memory)).regs d : Nat) : Int) = twos7 i % 65536 ∧
    (∀ r, r ≠ d → (run 2 (initial memory)).regs r = 0) ∧
    (run 2 (initial memory)).memory = memory := by
  have hop : (memory 0 >>> 13) &&& 0x7 = opcodeAddi := by
    rw [fld13, h0]
    show _ = 1
    omega
  have hdst : memory 0 / 128 % 8 = d := by rw [h0]; omega
  have himm : memory 0 % 128 = i := by rw [h0]; omega
  have hf0 : (initial memory).memory ((initial memory).pc &&& 8191) = memory 0 := by
    rw [and_8191]; rfl
  have hs1 : run 1 (initial memory) =
      { pc := 1, regs := write (write (fun _ => 0) d (u16 (0 + signExtend (memory 0)))) 0 0,
        memory := memory, isHalt := false } := by
    rw [run_succ_of_running 0 (initial memory) rfl]
    show cycle (initial memory) = _
    rw [cycle_imm _ (by rw [hf0]; exact Or.inr (Or.inl hop)), hf0]
    show State.mk (execute_imm_instruction (memory 0) (fun _ => 0) 0 memory).2.1
      (execute_imm_instruction (memory 0) (fun _ => 0) 0 memory).1
      (execute_imm_instruction (memory 0) (fun _ => 0) 0 memory).2.2 false = _
    rw [execute_imm_instruction_addi _ _ _ _ hop, hdst]
    rfl
  have hs2 : run 2 (initial memory) =
      { pc := 1, regs := write (write (fun _ => 0) d (u16 (0 + signExtend (memory 0)))) 0 0,
        memory := memory, isHalt := true } := by
    rw [run_succ_of_running 1 _ (by rw [hs1]), hs1]
    rw [cycle_of_halt]
    rw [and_8191]
    show (memory 1 >>> 13) &&& 0x7 = opcodeJ ∧ memory 1 &&& 0x1FFF = 1
    rw [h1]
    decide
  rw [hs1, hs2]
  refine ⟨rfl, rfl, rfl, ?_, fun r hr => ?_, rfl⟩
  · show ((write (write (fun _ => 0) d (u16 (0 + signExtend (memory 0)))) 0 0 d : Nat) : Int) = _
    rw [write_other _ _ _ _ (by omega), write_same, u16_cast, signExtend_cast, himm]
    simp
  · show write (write (fun _ => 0) d (u16 (0 + signExtend (memory 0)))) 0 0 r = 0
    unfold write
    split_ifs <;> rfl

/-- C9 at scenario B itself: word 0 = `0010000010000101`, word 1 = `0100000000000001`;
the run halts after one executed instruction with register 1 = 5 and `pc = 1`. -/
theorem C9_scenario_B_witness :
    (run 1 (initial (image [0b0010000010000101, 0b0100000000000001]))).isHalt = false ∧
    (run 2 (initial (image [0b0010000010000101, 0b0100000000000001]))).isHalt = true ∧
    (run 2 (initial (image [0b0010000010000101, 0b0100000000000001]))).pc = 1 ∧
    (((run 2 (initial (image [0b0010000010000101, 0b0100000000000001]))).regs 1 : Nat) : Int)
      = 5 ∧
    (∀ r, r ≠ 1 →
      (run 2 (initial (image [0b0010000010000101, 0b0100000000000001]))).regs r = 0) ∧
    (run 2 (initial (image [0b0010000010000101, 0b0100000000000001]))).memory
      = image [0b0010000010000101, 0b0100000000000001] :=
  C9_scenario_B (image [0b0010000010000101, 0b0100000000000001]) 1 5 (by decide) (by decide)
    (by decide) (by decide) (by decide)

/-- The word 0 is `add $0, $0, $0`: on an all-zero register file it changes no register
and advances `pc`. -/
theorem execute_instruction_zero (regs : Nat → Nat) (pc : Nat) (h : ∀ r, regs r = 0) :
    (∀ r, (execute_instruction 0 regs pc).1 r = 0) ∧
    (execute_instruction 0 regs pc).2 = u16 (pc + 1) := by
  have hf : (0 : Nat) &&& 0xF = functionCodeAdd := by decide
  simp only [execute_instruction]
  rw [if_pos hf]
  refine ⟨fun r => ?_, rfl⟩
  show write (write regs _ _) 0 0 r = 0
  unfold write
  split_ifs
  · rfl
  · rw [h, h]; rfl
  · exact h r

/-- While the `pc` is below the address `a` of the only non-zero word, the loop executes
`add $0, $0, $0`. -/
theorem run_before_self_jump (memory : Nat → Nat) (a : Nat) (ha : a < 8192)
    (hz : ∀ b, b ≠ a → memory b = 0) (k : Nat) (hk : k ≤ a) :
    (run k (initial memory)).isHalt = false ∧ (run k (initial memory)).pc = k ∧
    (∀ r, (run k (initial memory)).regs r = 0) ∧ (run k (initial memory)).memory = memory := by
  induction k with
  | zero => exact ⟨rfl, rfl, fun _ => rfl, rfl⟩
  | succ k ih =>
    obtain ⟨hrun, hpc, hregs, hmem⟩ := ih (by omega)
    have hf : (run k (initial memory)).memory ((run k (initial memory)).pc &&& 8191) = 0 := by
      rw [and_8191, hmem, hpc, Nat.mod_eq_of_lt (by omega)]
      exact hz k (by omega)
    have hz0 := execute_instruction_zero _ (run k (initial memory)).pc hregs
    rw [run_succ_of_running k _ hrun, cycle_alu _ (by rw [hf]; decide), hf]
    refine ⟨hrun, ?_, hz0.1, hmem⟩
    show (execute_instruction 0 _ _).2 = k + 1
    rw [hz0.2, hpc]
    unfold u16
    omega

/-- C10. A program that is only a self-jump. Let word `a` (`a < 8192`) of the memory image
be `j a` and every other word 0. The run from the initial state is still running after
each of its first `a` cycles (each executes one `add $0, $0, $0`) and is halted after
cycle `a + 1`, which executes nothing: it halts after exactly `a` executed instructions,
with `pc = a`, all registers 0 and the memory unchanged. For `a = 0` the first cycle
halts. -/
theorem C10_self_jump_only (memory : Nat → Nat) (a : Nat) (ha : a < 8192)
    (hj : memory a = 0x4000 + a) (hz : ∀ b, b ≠ a → memory b = 0) :
    (∀ k, k ≤ a → (run k (initial memory)).isHalt = false) ∧
    (run (a + 1) (initial memory)).isHalt = true ∧
    (run (a + 1) (initial memory)).pc = a ∧
    (∀ r, (run (a + 1) (initial memory)).regs r = 0) ∧
    (run (a + 1) (initial memory)).memory = memory := by
  obtain ⟨hrun, hpc, hregs, hmem⟩ := run_before_self_jump memory a ha hz a (Nat.le_refl a)
  have hf : (run a (initial memory)).memory ((run a (initial memory)).pc &&& 8191)
      = 0x4000 + a := by
    rw [and_8191, hmem, hpc, Nat.mod_eq_of_lt ha, hj]
  have hhalt : ((run a (initial memory)).memory ((run a (initial memory)).pc &&& 8191) >>> 13)
        &&& 0x7 = opcodeJ ∧
      (run a (initial memory)).memory ((run a (initial memory)).pc &&& 8191) &&& 0x1FFF
        = (run a (initial memory)).pc := by
    rw [hf, fld13, and_1FFF, hpc]
    constructor
    · show _ = 2
      omega
    · omega
  refine ⟨fun k hk => (run_before_self_jump memory a ha hz k hk).1, ?_⟩
  rw [run_succ_of_running a _ hrun, cycle_of_halt _ hhalt]
  exact ⟨rfl, hpc, hregs, hmem⟩

/-- C10 at scenario A: word 0 = `0100000000000000` and nothing else; the first cycle
halts with `pc = 0` and all registers 0. -/
theorem C10_self_jump_only_witness :
    (∀ k, k ≤ 0 → (run k (initial (image [0b0100000000000000]))).isHalt = false) ∧
    (run (0 + 1) (initial (image [0b0100000000000000]))).isHalt = true ∧
    (run (0 + 1) (initial (image [0b0100000000000000]))).pc = 0 ∧
    (∀ r, (run (0 + 1) (initial (image [0b0100000000000000]))).regs r = 0) ∧
    (run (0 + 1) (initial (image [0b0100000000000000]))).memory
      = image [0b0100000000000000] :=
  C10_self_jump_only (image [0b0100000000000000]) 0 (by decide) (by decide)
    (fun b hb => by
      cases b with
      | zero => exact absurd rfl hb
      | succ b => rfl)

/-! ## The state stays 16-bit -/

theorem u16_lt (n : Nat) : u16 n < 65536 := Nat.mod_lt _ (by decide)

theorem s16_lt (x : Int) : s16 x < 65536 := by
  unfold s16
  omega

theorem write_lt (a : Nat → Nat) (i v : Nat) (ha : ∀ j, a j < 65536) (hv : v < 65536) :
    ∀ j, write a i v j < 65536 := by
  intro j
  unfold write
  split_ifs
  · exact hv
  · exact ha j

theorem signExtend_lt (instr : Nat) : signExtend instr < 65536 := by
  rw [signExtend_eq]
  have hlt : instr % 128 < 128 := Nat.mod_lt _ (by decide)
  split_ifs <;> omega

theorem execute_instruction_lt (instr : Nat) (regs : Nat → Nat) (pc : Nat)
    (h : ∀ r, regs r < 65536) :
    (∀ r, (execute_instruction instr regs pc).1 r < 65536) ∧
    (execute_instruction instr regs pc).2 < 65536 := by
  refine ⟨?_, u16_lt _⟩
  simp only [execute_instruction]
  apply write_lt _ _ _ _ (by decide)
  have hor : ∀ a b, regs a ||| regs b < 65536 := fun a b =>
    (Nat.or_lt_two_pow (h a : regs a < 2 ^ 16) (h b : regs b < 2 ^ 16) :
      regs a ||| regs b < 2 ^ 16)
  split_ifs
  all_goals first
    | exact h
    | exact write_lt _ _ _ h (u16_lt _)
    | exact write_lt _ _ _ h (s16_lt _)
    | exact write_lt _ _ _ h (hor _ _)
    | exact write_lt _ _ _ h (Nat.lt_of_le_of_lt Nat.and_le_left (h _))
    | exact write_lt _ _ _ h (by decide)

theorem execute_imm_instruction_lt (instr : Nat) (regs : Nat → Nat) (pc : Nat)
    (memory : Nat → Nat) (h : ∀ r, regs r < 65536) (hm : ∀ a, memory a < 65536) :
    (∀ r, (execute_imm_instruction instr regs pc memory).1 r < 65536) ∧
    (execute_imm_instruction instr regs pc memory).2.1 < 65536 ∧
    (∀ a, (execute_imm_instruction instr regs pc memory).2.2 a < 65536) := by
  simp only [execute_imm_instruction]
  refine ⟨?_, ?_, ?_⟩
  · apply write_lt _ _ _ _ (by decide)
    split_ifs
    all_goals first
      | exact h
      | exact write_lt _ _ _ h (hm _)
      | exact write_lt _ _ _ h (u16_lt _)
      | exact write_lt _ _ _ h (by decide)
  · split_ifs <;> exact u16_lt _
  · split_ifs
    all_goals first
      | exact hm
      | exact write_lt _ _ _ hm (h _)

theorem execute_control_instruction_lt (instr : Nat) (regs : Nat → Nat) (pc : Nat)
    (isHalt : Bool) (h : ∀ r, regs r < 65536) (hpc : pc < 65536) :
    (∀ r, (execute_control_instruction instr regs pc isHalt).1 r < 65536) ∧
    (execute_control_instruction instr regs pc isHalt).2.1 < 65536 := by
  have himm : instr &&& 0x1FFF < 65536 := by
    rw [and_1FFF]
    have := Nat.mod_lt instr (by decide : 0 < 8192)
    omega
  simp only [execute_control_instruction]
  refine ⟨?_, ?_⟩
  · apply write_lt _ _ _ _ (by decide)
    split_ifs
    all_goals first
      | exact h
      | exact write_lt _ _ _ h (u16_lt _)
  · split_ifs
    all_goals first
      | exact hpc
      | exact himm

/-- One cycle keeps every register, every memory word and the `pc` below `2^16`. -/
theorem cycle_WF (s : State) (h : WF s) : WF (cycle s) := by
  obtain ⟨hpc, hregs, hmem⟩ := h
  unfold cycle
  simp only
  split_ifs
  · exact ⟨hpc, hregs, hmem⟩
  · exact ⟨(execute_instruction_lt _ _ _ hregs).2, (execute_instruction_lt _ _ _ hregs).1, hmem⟩
  · exact ⟨(execute_imm_instruction_lt _ _ _ _ hregs hmem).2.1,
      (execute_imm_instruction_lt _ _ _ _ hregs hmem).1,
      (execute_imm_instruction_lt _ _ _ _ hregs hmem).2.2⟩
  · exact ⟨(execute_control_instruction_lt _ _ _ _ hregs hpc).2,
      (execute_control_instruction_lt _ _ _ _ hregs hpc).1, hmem⟩
  · exact ⟨hpc, hregs, hmem⟩

/-- Every state of a run from a 16-bit memory image is 16-bit. -/
theorem run_WF (memory : Nat → Nat) (hm : ∀ a, memory a < 65536) (n : Nat) :
    WF (run n (initial memory)) := by
  induction n with
  | zero => exact ⟨Nat.zero_lt_succ _, fun _ => Nat.zero_lt_succ _, hm⟩
  | succ n ih =>
    show WF (loopStep (run n (initial memory)))
    unfold loopStep
    split_ifs
    · exact ih
    · exact cycle_WF _ ih

/-! ## Jumps and branches -/

theorem write_zero_other (regs : Nat → Nat) (r : Nat) (hr : r ≠ 0) : write regs 0 0 r = regs r :=
  write_other regs 0 0 r hr

theorem execute_instruction_jr (instr : Nat) (regs : Nat → Nat) (pc : Nat)
    (hf : instr &&& 0xF = functionCodeJr) :
    execute_instruction instr regs pc =
      (write regs 0 0, u16 (s16 ((regs (instr / 1024 % 8) : Int) - 1) + 1)) := by
  simp only [execute_instruction]
  rw [if_neg (by rw [hf]; decide), if_neg (by rw [hf]; decide), if_neg (by rw [hf]; decide),
    if_neg (by rw [hf]; decide), if_neg (by rw [hf]; decide), if_pos hf, fld10]

/-- C11. Net effect of `jr`: for a word with function code 1000, when `execute_instruction`
returns, `pc` is the 16-bit value that the register named by bits 10-12 held on entry
(also when that value is 0, through the intermediate `0 - 1` wraparound, and whatever the
incoming `pc`), and every register other than register 0 is unchanged. -/
theorem C11_jr_net_effect (instr : Nat) (regs : Nat → Nat) (pc : Nat)
    (hf : instr % 16 = 8) (hreg : regs (instr / 1024 % 8) < 65536) :
    (execute_instruction instr regs pc).2 = regs (instr / 1024 % 8) ∧
    (∀ r, r ≠ 0 → (execute_instruction instr regs pc).1 r = regs r) := by
  have hf1 : instr &&& 0xF = functionCodeJr := by rw [and_F]; exact hf
  rw [execute_instruction_jr instr regs pc hf1]
  refine ⟨?_, fun r hr => write_zero_other regs r hr⟩
  show u16 (s16 ((regs (instr / 1024 % 8) : Int) - 1) + 1) = regs (instr / 1024 % 8)
  unfold u16 s16
  omega

/-- C11 at `jr $1` (word `0000 0100 0000 1000`) with register 1 equal to 0 and incoming
`pc = 77`: the new `pc` is 0. -/
theorem C11_jr_net_effect_witness :
    0x0408 % 16 = 8 ∧
    (execute_instruction 0x0408 (fun _ => 0) 77).2 = 0 ∧
    (∀ r, r ≠ 0 → (execute_instruction 0x0408 (fun _ => 0) 77).1 r = 0) :=
  ⟨by decide, (C11_jr_net_effect 0x0408 (fun _ => 0) 77 (by decide) (by decide)).1,
    (C11_jr_net_effect 0x0408 (fun _ => 0) 77 (by decide) (by decide)).2⟩

theorem execute_imm_instruction_jeq (instr : Nat) (regs : Nat → Nat) (pc : Nat)
    (memory : Nat → Nat) (hop : (instr >>> 13) &&& 0x7 = opcodeJeq) :
    execute_imm_instruction instr regs pc memory =
      (write regs 0 0,
        if regs (instr / 1024 % 8) = regs (instr / 128 % 8) then
          u16 (pc + 1 + signExtend instr)
        else u16 (pc + 1),
        memory) := by
  simp only [execute_imm_instruction]
  rw [if_neg (by rw [hop]; decide), if_neg (by rw [hop]; decide),
    if_neg (by rw [hop]; decide), if_pos hop, fld10, fld7]
  split_ifs <;> rfl

/-- C12. `jeq` takes both paths: for a word with opcode 110, if the registers named by
bits 10-12 and bits 7-9 hold equal values the new `pc` is `(pc + 1 + s) mod 65536`, with
`s` in [-64, 63] the signed value of bits 0-6; otherwise it is `(pc + 1) mod 65536`. In
both cases every register other than register 0 and the whole memory are unchanged. -/
theorem C12_jeq_both_paths (instr : Nat) (regs : Nat → Nat) (pc : Nat) (memory : Nat → Nat)
    (hop : instr / 8192 % 8 = 6) :
    (-64 ≤ twos7 (instr % 128) ∧ twos7 (instr % 128) ≤ 63) ∧
    (regs (instr / 1024 % 8) = regs (instr / 128 % 8) →
      (((execute_imm_instruction instr regs pc memory).2.1 : Nat) : Int)
        = ((pc : Int) + 1 + twos7 (instr % 128)) % 65536) ∧
    (regs (instr / 1024 % 8) ≠ regs (instr / 128 % 8) →
      (execute_imm_instruction instr regs pc memory).2.1 = (pc + 1) % 65536) ∧
    (∀ r, r ≠ 0 → (execute_imm_instruction instr regs pc memory).1 r = regs r) ∧
    (execute_imm_instruction instr regs pc memory).2.2 = memory := by
  have hop1 : (instr >>> 13) &&& 0x7 = opcodeJeq := by rw [fld13]; exact hop
  have hlt : instr % 128 < 128 := Nat.mod_lt _ (by decide)
  rw [execute_imm_instruction_jeq instr regs pc memory hop1]
  refine ⟨?_, fun heq => ?_, fun hne => ?_, fun r hr => write_zero_other regs r hr, rfl⟩
  · unfold twos7; split_ifs <;> omega
  · show ((ite _ _ _ : Nat) : Int) = _
    rw [if_pos heq, u16_cast, signExtend_cast]
    push_cast
    rfl
  · show ite _ _ _ = _
    rw [if_neg hne]
    rfl

/-- C12 at `jeq $1, $2, -3` (word `1100 0101 0111 1101`) from `pc = 10`: with equal
registers the new `pc` is 8, with register 1 = 4 and the others 0 it is 11. -/
theorem C12_jeq_both_paths_witness :
    0xC57D / 8192 % 8 = 6 ∧
    (((execute_imm_instruction 0xC57D (fun _ => 0) 10 (fun _ => 0)).2.1 : Nat) : Int)
      = ((10 : Int) + 1 + twos7 (0xC57D % 128)) % 65536 ∧
    (execute_imm_instruction 0xC57D (fun r => if r = 1 then 4 else 0) 10 (fun _ => 0)).2.1
      = (10 + 1) % 65536 :=
  ⟨by decide,
    (C12_jeq_both_paths 0xC57D (fun _ => 0) 10 (fun _ => 0) (by decide)).2.1 rfl,
    (C12_jeq_both_paths 0xC57D (fun r => if r = 1 then 4 else 0) 10 (fun _ => 0)
      (by decide)).2.2.1 (by decide)⟩

/-- C13. `j` in `execute_control_instruction`: for a word with opcode 010, when the
13-bit target (bits 0-12) equals the current `pc` the halt flag is set and `pc` is
unchanged; otherwise `pc` becomes the target (no trailing `pc + 1`) and the flag keeps
the value it had. In both cases every register other than register 0 is unchanged. -/
theorem C13_control_j (instr : Nat) (regs : Nat → Nat) (pc : Nat) (isHalt : Bool)
    (hop : instr / 8192 % 8 = 2) :
    (instr % 8192 = pc →
      (execute_control_instruction instr regs pc isHalt).2.2 = true ∧
      (execute_control_instruction instr regs pc isHalt).2.1 = pc) ∧
    (instr % 8192 ≠ pc →
      (execute_control_instruction instr regs pc isHalt).2.2 = isHalt ∧
      (execute_control_instruction instr regs pc isHalt).2.1 = instr % 8192) ∧
    (∀ r, r ≠ 0 → (execute_control_instruction instr regs pc isHalt).1 r = regs r) := by
  have hop1 : (instr >>> 13) &&& 0x7 = opcodeJ := by rw [fld13]; exact hop
  simp only [execute_control_instruction]
  rw [if_pos hop1, and_1FFF]
  refine ⟨fun heq => ?_, fun hne => ?_, fun r hr => ?_⟩
  · rw [if_pos heq]
    exact ⟨rfl, rfl⟩
  · rw [if_neg hne]
    exact ⟨rfl, rfl⟩
  · show write (ite _ _ _ : (Nat → Nat) × Nat × Bool).1 0 0 r = regs r
    rw [write_zero_other _ r hr]
    split_ifs <;> rfl

/-- C13 at `j 5` (word `0100 0000 0000 0101`): from `pc = 5` the flag is set and `pc`
stays 5; from `pc = 9` the flag stays clear and `pc` becomes 5. -/
theorem C13_control_j_witness :
    0x4005 / 8192 % 8 = 2 ∧
    ((execute_control_instruction 0x4005 (fun _ => 0) 5 false).2.2 = true ∧
      (execute_control_instruction 0x4005 (fun _ => 0) 5 false).2.1 = 5) ∧
    ((execute_control_instruction 0x4005 (fun _ => 0) 9 false).2.2 = false ∧
      (execute_control_instruction 0x4005 (fun _ => 0) 9 false).2.1 = 0x4005 % 8192) :=
  ⟨by decide,
    (C13_control_j 0x4005 (fun _ => 0) 5 false (by decide)).1 (by decide),
    (C13_control_j 0x4005 (fun _ => 0) 9 false (by decide)).2.1 (by decide)⟩

/-- C14. `jal` links and jumps: for a word with opcode 011, after
`execute_control_instruction` register 7 holds `(pc + 1) mod 65536` computed from the `pc`
on entry, `pc` is the 13-bit target (no trailing `pc + 1`), registers 1-6 are unchanged,
register 0 is 0, and the halt flag keeps the value it had, also when the target equals
the `pc` on entry. -/
theorem C14_control_jal (instr : Nat) (regs : Nat → Nat) (pc : Nat) (isHalt : Bool)
    (hop : instr / 8192 % 8 = 3) :
    (execute_control_instruction instr regs pc isHalt).1 7 = (pc + 1) % 65536 ∧
    (execute_control_instruction instr regs pc isHalt).2.1 = instr % 8192 ∧
    (∀ r, 1 ≤ r → r ≤ 6 → (execute_control_instruction instr regs pc isHalt).1 r = regs r) ∧
    (execute_control_instruction instr regs pc isHalt).1 0 = 0 ∧
    (execute_control_instruction instr regs pc isHalt).2.2 = isHalt := by
  have hop1 : (instr >>> 13) &&& 0x7 = opcodeJal := by rw [fld13]; exact hop
  simp only [execute_control_instruction]
  rw [if_neg (by rw [hop1]; decide), if_pos hop1, and_1FFF]
  refine ⟨?_, rfl, fun r h1 h6 => ?_, write_same _ _ _, rfl⟩
  · show write (write regs 7 (u16 (pc + 1))) 0 0 7 = _
    rw [write_other _ _ _ _ (by decide), write_same]
    rfl
  · show write (write regs 7 (u16 (pc + 1))) 0 0 r = _
    rw [write_other _ _ _ _ (by omega), write_other _ _ _ _ (by omega)]

/-- C14 at `jal 5` (word `0110 0000 0000 0101`) from `pc = 5`: register 7 becomes 6, `pc`
is 5 and the halt flag stays clear although the target equals the `pc` on entry. -/
theorem C14_control_jal_witness :
    0x6005 / 8192 % 8 = 3 ∧
    (execute_control_instruction 0x6005 (fun _ => 0) 5 false).1 7 = (5 + 1) % 65536 ∧
    (execute_control_instruction 0x6005 (fun _ => 0) 5 false).2.1 = 0x6005 % 8192 ∧
    (execute_control_instruction 0x6005 (fun _ => 0) 5 false).2.2 = false :=
  ⟨by decide,
    (C14_control_jal 0x6005 (fun _ => 0) 5 false (by decide)).1,
    (C14_control_jal 0x6005 (fun _ => 0) 5 false (by decide)).2.1,
    (C14_control_jal 0x6005 (fun _ => 0) 5 false (by decide)).2.2.2.2⟩

/-! ## The register-register executor -/

theorem write_zero_self (regs : Nat → Nat) (h : regs 0 = 0) : write regs 0 0 = regs := by
  funext r
  unfold write
  split_ifs with hr
  · rw [hr, h]
  · rfl

/-- C15. Undefined function codes are silent no-ops: for a word whose low 4 bits are none
of 0000, 0001, 0010, 0011, 0100, 1000 and a register file with register 0 equal to 0,
`execute_instruction` returns (it has no error result) the same register file and
`pc + 1` (mod 65536). -/
theorem C15_undefined_function_code (instr : Nat) (regs : Nat → Nat) (pc : Nat)
    (h0 : instr % 16 ≠ 0) (h1 : instr % 16 ≠ 1) (h2 : instr % 16 ≠ 2) (h3 : instr % 16 ≠ 3)
    (h4 : instr % 16 ≠ 4) (h8 : instr % 16 ≠ 8) (hz : regs 0 = 0) :
    execute_instruction instr regs pc = (regs, (pc + 1) % 65536) := by
  simp only [execute_instruction]
  rw [and_F, if_neg h0, if_neg h1, if_neg h2, if_neg h3, if_neg h4, if_neg h8]
  show (write regs 0 0, u16 (pc + 1)) = _
  rw [write_zero_self regs hz]
  rfl

/-- C15 at the word `0000 0100 1001 1111` (function code 1111) with 7 in every register
but register 0 and `pc = 65535`: nothing changes except `pc`, which wraps to 0. -/
theorem C15_undefined_function_code_witness :
    execute_instruction 0x049F (fun r => if r = 0 then 0 else 7) 65535
      = ((fun r => if r = 0 then 0 else 7), (65535 + 1) % 65536) :=
  C15_undefined_function_code 0x049F (fun r => if r = 0 then 0 else 7) 65535
    (by decide) (by decide) (by decide) (by decide) (by decide) (by decide) rfl

theorem signExtend_unsigned (instr : Nat) :
    signExtend instr = ((twos7 (instr % 128)) % 65536).toNat := by
  rw [signExtend_eq]
  have hlt : instr % 128 < 128 := Nat.mod_lt _ (by decide)
  unfold twos7
  split_ifs <;> omega

/-- C16. Set-less-than is an unsigned 16-bit comparison. `slt` (function code 0100) with a
destination (bits 4-6) other than register 0 sets it to 1 if the value of the register of
bits 10-12 is less than the value of the register of bits 7-9, as unsigned numbers, and to
0 otherwise. `slti` (opcode 111) with a destination (bits 7-9) other than register 0 sets
it to 1 if the value of the register of bits 10-12 is less than the sign-extended
immediate read as an unsigned 16-bit number, and to 0 otherwise; a negative immediate
compares as a value in `0xFFC0..0xFFFF`. -/
theorem C16_set_less_than (instr : Nat) (regs : Nat → Nat) (pc : Nat) (memory : Nat → Nat) :
    (instr % 16 = 4 → instr / 16 % 8 ≠ 0 →
      (execute_instruction instr regs pc).1 (instr / 16 % 8)
        = if regs (instr / 1024 % 8) < regs (instr / 128 % 8) then 1 else 0) ∧
    (instr / 8192 % 8 = 7 → instr / 128 % 8 ≠ 0 →
      (execute_imm_instruction instr regs pc memory).1 (instr / 128 % 8)
        = if regs (instr / 1024 % 8) < ((twos7 (instr % 128)) % 65536).toNat then 1 else 0) ∧
    (twos7 (instr % 128) < 0 →
      0xFFC0 ≤ ((twos7 (instr % 128)) % 65536).toNat ∧
      ((twos7 (instr % 128)) % 65536).toNat ≤ 0xFFFF) := by
  refine ⟨fun hf hd => ?_, fun hop hd => ?_, fun hneg => ?_⟩
  · have hf1 : instr &&& 0xF = functionCodeSlt := by rw [and_F]; exact hf
    simp only [execute_instruction]
    rw [if_neg (by rw [hf1]; decide), if_neg (by rw [hf1]; decide),
      if_neg (by rw [hf1]; decide), if_neg (by rw [hf1]; decide), if_pos hf1,
      fld4, fld10, fld7]
    show write (write regs (instr / 16 % 8) _) 0 0 (instr / 16 % 8) = _
    rw [write_other _ _ _ _ hd, write_same]
  · have hop1 : (instr >>> 13) &&& 0x7 = opcodeSlti := by rw [fld13]; exact hop
    simp only [execute_imm_instruction]
    rw [if_pos hop1, fld10, fld7, signExtend_unsigned]
    show write (write regs (instr / 128 % 8) _) 0 0 (instr / 128 % 8) = _
    rw [write_other _ _ _ _ hd, write_same]
  · have hlt : instr % 128 < 128 := Nat.mod_lt _ (by decide)
    revert hneg
    unfold twos7
    split_ifs <;> omega

/-- C16 at scenario C, `slt $3, $1, $2` (word `0000 0101 0011 0100`): with register 1 = 3
and register 2 = 5 the destination becomes 1; with the values swapped it becomes 0. -/
theorem C16_set_less_than_witness :
    (0x0534 % 16 = 4 ∧ 0x0534 / 16 % 8 ≠ 0) ∧
    (execute_instruction 0x0534 (fun r => if r = 1 then 3 else if r = 2 then 5 else 0) 0).1
        (0x0534 / 16 % 8) = 1 ∧
    (execute_instruction 0x0534 (fun r => if r = 1 then 5 else if r = 2 then 3 else 0) 0).1
        (0x0534 / 16 % 8) = 0 :=
  ⟨by decide,
    (C16_set_less_than 0x0534 (fun r => if r = 1 then 3 else if r = 2 then 5 else 0) 0
      (fun _ => 0)).1 (by decide) (by decide),
    (C16_set_less_than 0x0534 (fun r => if r = 1 then 5 else if r = 2 then 3 else 0) 0
      (fun _ => 0)).1 (by decide) (by decide)⟩

/-! ## No access is out of bounds -/

theorem field_lt (x k : Nat) : (x >>> k) &&& 0x7 < NUM_REGS := by
  rw [field_eq]
  exact Nat.mod_lt _ (by decide)

theorem fetch_lt (pc : Nat) : pc &&& 8191 < MEM_SIZE := by
  rw [and_8191]
  exact Nat.mod_lt _ (by decide)

theorem index_lt (b i : Nat) : (b + i) &&& 8191 < 1 <<< 13 := by
  rw [and_8191]
  exact Nat.mod_lt _ (by decide)

theorem readAt_of_lt (size : Nat) (a : Nat → Nat) (i : Nat) (h : i < size) :
    readAt size a i = some (a i) := by
  unfold readAt
  rw [if_pos h]

theorem writeAt_of_lt (size : Nat) (a : Nat → Nat) (i v : Nat) (h : i < size) :
    writeAt size a i v = some (write a i v) := by
  unfold writeAt
  rw [if_pos h]

theorem readAt_reg (regs : Nat → Nat) (x k : Nat) :
    readAt NUM_REGS regs ((x >>> k) &&& 0x7) = some (regs ((x >>> k) &&& 0x7)) :=
  readAt_of_lt _ _ _ (field_lt x k)

theorem writeAt_reg (regs : Nat → Nat) (x k v : Nat) :
    writeAt NUM_REGS regs ((x >>> k) &&& 0x7) v = some (write regs ((x >>> k) &&& 0x7) v) :=
  writeAt_of_lt _ _ _ _ (field_lt x k)

theorem writeAt_reg0 (regs : Nat → Nat) (v : Nat) :
    writeAt NUM_REGS regs 0 v = some (write regs 0 v) :=
  writeAt_of_lt _ _ _ _ (by decide)

theorem writeAt_reg7 (regs : Nat → Nat) (v : Nat) :
    writeAt NUM_REGS regs 7 v = some (write regs 7 v) :=
  writeAt_of_lt _ _ _ _ (by decide)

theorem execute_instruction_checked_eq (instr : Nat) (regs : Nat → Nat) (pc : Nat) :
    execute_instruction_checked instr regs pc = some (execute_instruction instr regs pc) := by
  simp only [execute_instruction_checked, execute_instruction, readAt_reg, writeAt_reg]
  split_ifs <;> simp [writeAt_reg0, *]

theorem execute_imm_instruction_checked_eq (instr : Nat) (regs : Nat → Nat) (pc : Nat)
    (memory : Nat → Nat) :
    execute_imm_instruction_checked instr regs pc memory
      = some (execute_imm_instruction instr regs pc memory) := by
  have hmem : ∀ b i, readAt MEM_SIZE memory ((b + i) &&& 8191)
      = some (memory ((b + i) &&& 8191)) :=
    fun b i => readAt_of_lt _ _ _ (index_lt b i)
  have hst : ∀ b i v, writeAt MEM_SIZE memory ((b + i) &&& 8191) v
      = some (write memory ((b + i) &&& 8191) v) :=
    fun b i v => writeAt_of_lt _ _ _ _ (index_lt b i)
  simp only [execute_imm_instruction_checked, execute_imm_instruction, readAt_reg,
    writeAt_reg, hmem, hst, index_lt, if_true]
  split_ifs <;> simp [writeAt_reg0, readAt_reg, writeAt_reg, hmem, hst, *]

theorem execute_control_instruction_checked_eq (instr : Nat) (regs : Nat → Nat) (pc : Nat)
    (isHalt : Bool) :
    execute_control_instruction_checked instr regs pc isHalt
      = some (execute_control_instruction instr regs pc isHalt) := by
  simp only [execute_control_instruction_checked, execute_control_instruction]
  split_ifs <;> simp [writeAt_reg0, writeAt_reg7, *]

theorem cycle_checked_eq (s : State) : cycle_checked s = some (cycle s) := by
  simp only [cycle_checked, cycle, readAt_of_lt _ _ _ (fetch_lt s.pc),
    execute_instruction_checked_eq, execute_imm_instruction_checked_eq,
    execute_control_instruction_checked_eq]
  split_ifs <;> simp [*]

/-- C17. No access is out of bounds and no instruction can fail. The index of the
instruction fetch and the index of `lw` and `sw` are below 8192, so the range guards of
`lw` and `sw` always hold (the load or store is never skipped); every register index
taken from an instruction word is below 8; and the loop body with every array access
bounds-checked never fails: it returns the state that the loop body computes, for every
`pc`, register file and memory. -/
theorem C17_no_access_out_of_bounds :
    (∀ pc : Nat, pc &&& 8191 < MEM_SIZE) ∧
    (∀ b imm : Nat, (b + imm) &&& 8191 < 1 <<< 13 ∧ (b + imm) &&& 8191 < MEM_SIZE) ∧
    (∀ instr k : Nat, (instr >>> k) &&& 0x7 < NUM_REGS) ∧
    (∀ (instr : Nat) (regs : Nat → Nat) (pc : Nat) (memory : Nat → Nat),
      (instr / 8192 % 8 = 4 →
        (execute_imm_instruction instr regs pc memory).1
          = write (write regs (instr / 64 % 8)
              (memory ((regs (instr / 512 % 8) + signExtend instr) &&& 8191))) 0 0) ∧
      (instr / 8192 % 8 = 5 →
        (execute_imm_instruction instr regs pc memory).2.2
          = write memory ((regs (instr / 512 % 8) + signExtend instr) &&& 8191)
              (regs (instr / 64 % 8)))) ∧
    (∀ s : State, cycle_checked s = some (cycle s)) := by
  refine ⟨fetch_lt, fun b imm => ⟨index_lt b imm, index_lt b imm⟩, field_lt,
    fun instr regs pc memory => ⟨fun h4 => ?_, fun h5 => ?_⟩, cycle_checked_eq⟩
  · have h4a : (instr >>> 13) &&& 0x7 = opcodeLw := by rw [fld13]; exact h4
    rw [execute_imm_instruction_lw instr regs pc memory h4a, fld6, fld9,
      index_eq_effectiveAddress]
  · have h5a : (instr >>> 13) &&& 0x7 = opcodeSw := by rw [fld13]; exact h5
    rw [execute_imm_instruction_sw instr regs pc memory h5a, fld6, fld9,
      index_eq_effectiveAddress]

/-! ## The duplicated halt check -/

/-- On a state whose register 0 is 0, the loop body with and without the pre-dispatch
halt check compute the same state. -/
theorem cycle_eq_without_precheck (s : State) (h0 : s.regs 0 = 0) :
    cycle s = cycle_without_precheck s := by
  by_cases hpre : (s.memory (s.pc &&& 8191) >>> 13) &&& 0x7 = opcodeJ ∧
      s.memory (s.pc &&& 8191) &&& 0x1FFF = s.pc
  · rw [cycle_of_halt s hpre]
    unfold cycle_without_precheck
    simp only
    rw [if_neg (by rw [hpre.1]; decide), if_neg (by rw [hpre.1]; decide),
      if_pos (Or.inl hpre.1)]
    simp only [execute_control_instruction]
    rw [if_pos hpre.1, if_pos hpre.2]
    show _ = State.mk s.pc (write s.regs 0 0) s.memory true
    rw [write_zero_self s.regs h0]
  · unfold cycle cycle_without_precheck
    simp only
    rw [if_neg hpre]

theorem run_eq_without_precheck (s : State) (h0 : s.regs 0 = 0) (n : Nat) :
    run n s = run_without_precheck n s := by
  induction n with
  | zero => rfl
  | succ n ih =>
    show loopStep (run n s) = loopStep_without_precheck (run_without_precheck n s)
    rw [← ih]
    unfold loopStep loopStep_without_precheck
    rw [cycle_eq_without_precheck _ (run_reg0 s h0 n)]

/-- C18. The duplicated halt check is redundant. For every memory image, the run of the
loop as written and the run of the loop without the pre-dispatch halt check are, from the
initial state, the same state after every number of cycles (`pc`, registers, memory and
halt flag). And inside the loop as written the halt branch of
`execute_control_instruction` is never taken: whenever the pre-dispatch check fails,
that executor returns the halt flag it was given. -/
theorem C18_halt_check_redundant :
    (∀ (memory : Nat → Nat) (n : Nat),
      run n (initial memory) = run_without_precheck n (initial memory)) ∧
    (∀ (s : State),
      ¬ ((s.memory (s.pc &&& 8191) >>> 13) &&& 0x7 = opcodeJ ∧
          s.memory (s.pc &&& 8191) &&& 0x1FFF = s.pc) →
      (execute_control_instruction (s.memory (s.pc &&& 8191)) s.regs s.pc s.isHalt).2.2
        = s.isHalt) := by
  refine ⟨fun memory n => run_eq_without_precheck (initial memory) rfl n, fun s hpre => ?_⟩
  simp only [execute_control_instruction]
  split_ifs with h1 h2 h3
  · exact absurd ⟨h1, h2⟩ hpre
  · rfl
  · rfl
  · rfl

/-! ## The shape of a halted state -/

theorem image_lt (prog : List Nat) (h : ∀ w ∈ prog, w < 65536) (a : Nat) :
    image prog a < 65536 := by
  unfold image
  by_cases ha : a < prog.length
  · rw [List.getD_eq_getElem _ _ ha]
    exact h _ (List.getElem_mem _)
  · rw [List.getD_eq_default _ _ (by omega)]
    decide

/-- C19. Shape of every halted state: if the run from the initial state, on a memory
image of 16-bit words, is halted after `n` cycles, then its `pc` is below 8192 and the
memory word at address `pc` is the `j` instruction targeting `pc`, the 16-bit value
`0x4000 + pc`. -/
theorem C19_halted_state_shape (memory : Nat → Nat) (hm : ∀ a, memory a < 65536) (n : Nat)
    (hh : (run n (initial memory)).isHalt = true) :
    (run n (initial memory)).pc < 8192 ∧
    (run n (initial memory)).memory (run n (initial memory)).pc
      = 0x4000 + (run n (initial memory)).pc := by
  induction n with
  | zero => exact absurd hh (by simp [run, initial])
  | succ n ih =>
    by_cases hprev : (run n (initial memory)).isHalt = true
    · have hstay : run (n + 1) (initial memory) = run n (initial memory) := by
        show loopStep (run n (initial memory)) = _
        unfold loopStep
        rw [if_pos hprev]
      rw [hstay]
      exact ih hprev
    · have hrun : (run n (initial memory)).isHalt = false := by simpa using hprev
      rw [run_succ_of_running n _ hrun] at hh ⊢
      obtain ⟨hlt, hop, htgt⟩ := selfJump_of_cycle_halt _ hrun hh
      have hpre := (cycle_halt_iff _ hrun).mp hh
      rw [cycle_of_halt _ hpre]
      refine ⟨hlt, ?_⟩
      show (run n (initial memory)).memory (run n (initial memory)).pc
        = 0x4000 + (run n (initial memory)).pc
      have hw := (run_WF memory hm n).2.2 (run n (initial memory)).pc
      clear hpre hh ih
      omega

/-- C19 at scenario B: the run is halted after two cycles with `pc = 1` and word 1 equal
to `0x4001`. -/
theorem C19_halted_state_shape_witness :
    (run 2 (initial (image [0x2085, 0x4001]))).isHalt = true ∧
    (run 2 (initial (image [0x2085, 0x4001]))).pc < 8192 ∧
    (run 2 (initial (image [0x2085, 0x4001]))).memory
        (run 2 (initial (image [0x2085, 0x4001]))).pc
      = 0x4000 + (run 2 (initial (image [0x2085, 0x4001]))).pc :=
  ⟨by decide,
    C19_halted_state_shape (image [0x2085, 0x4001]) (image_lt _ (by decide)) 2 (by decide)⟩

/-! ## The shared bit 6 of `lw` and `sw` -/

/-- C20. The data-register field and the immediate of `lw`/`sw` share bit 6. For a word
with opcode 100 or 101, the executor uses the register named by bits 6-8 as the data
register (destination of `lw`, source of `sw`) and the sign-extended bits 0-6 as the
offset, and the data-register index is odd if and only if the offset is negative. Hence no
such word has an even data register with a negative offset, nor an odd data register with
a non-negative offset: register field and immediate are not independent. -/
theorem C20_shared_bit_six (instr : Nat) (regs : Nat → Nat) (pc : Nat)
    (memory : Nat → Nat) :
    (instr / 8192 % 8 = 4 →
      (execute_imm_instruction instr regs pc memory).1
        = write (write regs ((instr >>> 6) &&& 0x7)
            (memory (effectiveAddress (regs ((instr >>> 9) &&& 0x7))
              (toSigned16 (signExtend instr))))) 0 0) ∧
    (instr / 8192 % 8 = 5 →
      (execute_imm_instruction instr regs pc memory).2.2
        = write memory
            (effectiveAddress (regs ((instr >>> 9) &&& 0x7)) (toSigned16 (signExtend instr)))
            (regs ((instr >>> 6) &&& 0x7))) ∧
    (((instr >>> 6) &&& 0x7) % 2 = 1 ↔ toSigned16 (signExtend instr) < 0) ∧
    ¬ (((instr >>> 6) &&& 0x7) % 2 = 0 ∧ toSigned16 (signExtend instr) < 0) ∧
    ¬ (((instr >>> 6) &&& 0x7) % 2 = 1 ∧ 0 ≤ toSigned16 (signExtend instr)) := by
  have hs : toSigned16 (signExtend instr) = twos7 (instr % 128) := (toSigned16_signExtend instr)
  have hiff : ((instr >>> 6) &&& 0x7) % 2 = 1 ↔ toSigned16 (signExtend instr) < 0 := by
    rw [hs, fld6]
    have hlt : instr % 128 < 128 := Nat.mod_lt _ (by decide)
    unfold twos7
    split_ifs <;> omega
  refine ⟨fun h4 => ?_, fun h5 => ?_, hiff, fun hc => ?_, fun hc => ?_⟩
  · have h4a : (instr >>> 13) &&& 0x7 = opcodeLw := by rw [fld13]; exact h4
    rw [execute_imm_instruction_lw instr regs pc memory h4a, hs]
  · have h5a : (instr >>> 13) &&& 0x7 = opcodeSw := by rw [fld13]; exact h5
    rw [execute_imm_instruction_sw instr regs pc memory h5a, hs]
  · have := hiff.mpr hc.2
    omega
  · have := hiff.mp hc.1
    omega

/-- C20 at `lw $2, -1($0)` as one would encode it with independent fields, the word
`1000 0000 1111 1111`: bit 6 of the offset makes the data register 3, not 2. -/
theorem C20_shared_bit_six_witness :
    (0x80FF / 8192 % 8 = 4 ∨ 0x80FF / 8192 % 8 = 5) ∧
    (((0x80FF >>> 6) &&& 0x7) % 2 = 1 ↔ toSigned16 (signExtend 0x80FF) < 0) ∧
    (0x80FF >>> 6) &&& 0x7 = 3 ∧ toSigned16 (signExtend 0x80FF) = -1 :=
  ⟨by decide,
    (C20_shared_bit_six 0x80FF (fun _ => 0) 0 (fun _ => 0)).2.2.1,
    by decide, by decide⟩

/-! ## Two endless loops -/

theorem image_of_ge (prog : List Nat) (a : Nat) (h : prog.length ≤ a) : image prog a = 0 := by
  unfold image
  exact List.getD_eq_default _ _ h

theorem storingLoopImage_no_selfJump (a : Nat) : ¬ selfJump storingLoopImage a := by
  by_cases h : a < 3
  · interval_cases a <;> decide
  · have : storingLoopImage a = 0 := image_of_ge _ a (by simpa using h)
    simp [selfJump, this]

theorem plainLoopImage_no_selfJump (a : Nat) : ¬ selfJump plainLoopImage a := by
  by_cases h : a < 2
  · interval_cases a <;> decide
  · have : plainLoopImage a = 0 := image_of_ge _ a (by simpa using h)
    simp [selfJump, this]

theorem plainLoopImage_no_sw (a : Nat) : plainLoopImage a / 8192 % 8 ≠ 5 := by
  by_cases h : a < 2
  · interval_cases a <;> decide
  · have : plainLoopImage a = 0 := image_of_ge _ a (by simpa using h)
    simp [this]

/-- One cycle of `storingLoopImage` keeps: the loop running, `pc` among 0, 1, 2, register 0
equal to 0, register 2 and memory word 5 at most 7, and every other memory word as
loaded. -/
theorem storingLoop_cycle (s : State) (hrun : s.isHalt = false) (hpc : s.pc < 3)
    (h0 : s.regs 0 = 0) (h2 : s.regs 2 ≤ 7) (h5 : s.memory 5 ≤ 7)
    (hmem : ∀ a, a ≠ 5 → s.memory a = storingLoopImage a) :
    (cycle s).isHalt = false ∧ (cycle s).pc < 3 ∧ (cycle s).regs 0 = 0 ∧
    (cycle s).regs 2 ≤ 7 ∧ (cycle s).memory 5 ≤ 7 ∧
    (∀ a, a ≠ 5 → (cycle s).memory a = storingLoopImage a) := by
  have hcases : s.pc = 0 ∨ s.pc = 1 ∨ s.pc = 2 := by omega
  rcases hcases with hp | hp | hp
  · have hf : s.memory (s.pc &&& 8191) = 0x2107 := by
      rw [and_8191, hp, hmem _ (by decide)]
      rfl
    have hop : (s.memory (s.pc &&& 8191) >>> 13) &&& 0x7 = opcodeAddi := by rw [hf]; decide
    rw [cycle_imm s (Or.inr (Or.inl hop)), execute_imm_instruction_addi _ _ _ _ hop, hf, hp]
    dsimp only
    refine ⟨hrun, by decide, write_same _ _ _, ?_, h5, hmem⟩
    show write (write s.regs (0x2107 / 128 % 8) (u16 (s.regs (0x2107 / 1024 % 8)
      + signExtend 0x2107))) 0 0 2 ≤ 7
    rw [write_other _ _ _ _ (by decide)]
    have hr : s.regs (0x2107 / 1024 % 8) = 0 := h0
    rw [show (0x2107 / 128 % 8) = 2 from by decide, write_same, hr]
    decide
  · have hf : s.memory (s.pc &&& 8191) = 0xA085 := by
      rw [and_8191, hp, hmem _ (by decide)]
      rfl
    have hop : (s.memory (s.pc &&& 8191) >>> 13) &&& 0x7 = opcodeSw := by rw [hf]; decide
    rw [cycle_imm s (Or.inr (Or.inr (Or.inr (Or.inl hop)))),
      execute_imm_instruction_sw _ _ _ _ hop, hf, hp]
    have hb : s.regs ((0xA085 >>> 9) &&& 0x7) = 0 := h0
    have hea : effectiveAddress (s.regs ((0xA085 >>> 9) &&& 0x7)) (twos7 (0xA085 % 128)) = 5 := by
      rw [hb]; decide
    have hsrc : s.regs ((0xA085 >>> 6) &&& 0x7) = s.regs 2 := rfl
    dsimp only
    refine ⟨hrun, by decide, write_same _ _ _, ?_, ?_, fun a ha => ?_⟩
    · show write s.regs 0 0 2 ≤ 7
      rw [write_other _ _ _ _ (by decide)]
      exact h2
    · show write s.memory _ _ 5 ≤ 7
      rw [hea, write_same, hsrc]
      exact h2
    · show write s.memory _ _ a = _
      rw [hea, write_other _ _ _ _ ha]
      exact hmem a ha
  · have hf : s.memory (s.pc &&& 8191) = 0x4000 := by
      rw [and_8191, hp, hmem _ (by decide)]
      rfl
    have hop : (s.memory (s.pc &&& 8191) >>> 13) &&& 0x7 = opcodeJ := by rw [hf]; decide
    have hne : s.memory (s.pc &&& 8191) &&& 0x1FFF ≠ s.pc := by rw [hf, hp]; decide
    rw [cycle_j s hop hne, hf]
    dsimp only
    refine ⟨hrun, by decide, write_same _ _ _, ?_, h5, hmem⟩
    show write s.regs 0 0 2 ≤ 7
    rw [write_other _ _ _ _ (by decide)]
    exact h2

theorem storingLoop_run (n : Nat) :
    (run n (initial storingLoopImage)).isHalt = false ∧
    (run n (initial storingLoopImage)).pc < 3 ∧
    (run n (initial storingLoopImage)).regs 0 = 0 ∧
    (run n (initial storingLoopImage)).regs 2 ≤ 7 ∧
    (run n (initial storingLoopImage)).memory 5 ≤ 7 ∧
    (∀ a, a ≠ 5 → (run n (initial storingLoopImage)).memory a = storingLoopImage a) := by
  induction n with
  | zero => exact ⟨rfl, by decide, rfl, by decide, by decide, fun _ _ => rfl⟩
  | succ n ih =>
    obtain ⟨hrun, hpc, h0, h2, h5, hmem⟩ := ih
    rw [run_succ_of_running n _ hrun]
    exact storingLoop_cycle _ hrun hpc h0 h2 h5 hmem

/-- No memory image of the run of `storingLoopImage` holds a self-jump. -/
theorem storingLoop_no_selfJump (n a : Nat) :
    ¬ selfJump (run n (initial storingLoopImage)).memory a := by
  obtain ⟨_, _, _, _, h5, hmem⟩ := storingLoop_run n
  by_cases ha : a = 5
  · rw [ha]
    intro hc
    have := hc.1
    omega
  · intro hc
    apply storingLoopImage_no_selfJump a
    unfold selfJump at hc ⊢
    rw [← hmem a ha]
    exact hc

/-- C3 amended, at two endless loops. `storingLoopImage` executes a `sw` in every round
(after two cycles word 5, loaded as 0, holds 7), no memory image of its run holds a
self-jump, and it never halts. `plainLoopImage` has neither a self-jump nor a `sw` word,
and it never halts. -/
theorem C3_no_idiom_runs_forever_witness :
    (storingLoopImage 5 = 0 ∧ (run 2 (initial storingLoopImage)).memory 5 = 7) ∧
    (∀ n a, a < 8192 → ¬ selfJump (run n (initial storingLoopImage)).memory a) ∧
    (∀ n, (run n (initial storingLoopImage)).isHalt = false) ∧
    (∀ a, a < 8192 → ¬ selfJump plainLoopImage a) ∧
    (∀ a, a < 8192 → plainLoopImage a / 8192 % 8 ≠ 5) ∧
    (∀ n, (run n (initial plainLoopImage)).isHalt = false) :=
  ⟨⟨by decide, by decide⟩,
    fun n a _ => storingLoop_no_selfJump n a,
    (C3_no_idiom_runs_forever storingLoopImage).1 (fun n a _ => storingLoop_no_selfJump n a),
    fun a _ => plainLoopImage_no_selfJump a,
    fun a _ => plainLoopImage_no_sw a,
    (C3_no_idiom_runs_forever plainLoopImage).2 (fun a _ => plainLoopImage_no_selfJump a)
      (fun a _ => plainLoopImage_no_sw a)⟩

end E20
